import Mathlib

set_option linter.dupNamespace false

/-!
# k8sextend: node resource accounting

A shallow embedding of `k8sextend.go`: the loaders `GetPods`, `GetNamespaces`,
`GetNodes`, and the two loops of `Connect` (the link loop that stores a node
copy in every pod's `NodePTR`, and the accounting loop that decrements the
`Available` ledger of that node).

Modelling choices.

* `resource.Quantity` (library type) is an exact decimal number.  It is
  represented by the integer count of its smallest unit (one nano, `10^-9`).
  `Set(v)` stores the whole number `v`, `Sub(y)` is exact subtraction and
  `Copy()` a deep copy.
* `Value()` returns an `int64`: the quantity rounded to whole units (away
  from zero) when that whole number fits `int64`.  When it does not fit, the
  library's result no longer represents the quantity (it is `0` for `10E`
  and for `2^64`); the model returns `0`.  Every property that reads a
  quantity through `Value()` and depends on the result states the range it
  needs (`Quantity.Fits`), so it does not rest on that choice.
* `POD.Value() - 1` is `int64` arithmetic and wraps (`wrapInt64`).
* `v1.ResourceList` is a map; only the keys `cpu`, `memory` and `pods` are
  ever read, through `Cpu()`, `Memory()` and `Pods()`, which return the zero
  quantity for an absent key.
* `Resource` holds three `*resource.Quantity` pointers.  Pointers are
  modelled as `Option Nat` (`none` is `nil`) into an explicit heap of
  quantity cells, so that the copy of a node kept in `Pod.NodePTR` shares the
  ledger cells of the node in the node list, exactly as in the Go program.
* A method call through a `nil` quantity pointer panics; the accounting
  functions return `Option`, with `none` for a panic.
* `Allocatable` and `Capacity` are kept by value in the node: `GetNodes` reads
  them through `Cpu()`, `Memory()`, `Pods()` (each returns a pointer to a copy
  of the map entry) and `Copy()`, so no ledger cell aliases a map entry.
* The client set-up at the start of `Connect` and the failure of a listing
  call are not modelled; the loaders take the listing the API returned.
-/

namespace K8sExtend

/-! ## Library types -/

/-- The library type `resource.Quantity`: an exact decimal, stored as a count of nano units. -/
structure Quantity where
  nano : Int
deriving DecidableEq, Repr

/-- Zero value of a quantity (what `Cpu()` returns for an absent key). -/
def Quantity.zero : Quantity := ⟨0⟩

/-- Smallest `int64`. -/
def minInt64 : Int := -9223372036854775808

/-- Largest `int64`. -/
def maxInt64 : Int := 9223372036854775807

/-- The `int64` an integer operation yields for the exact result `v` (two's complement wrap). -/
def wrapInt64 (v : Int) : Int :=
  (v + 9223372036854775808) % 18446744073709551616 - 9223372036854775808

/-- The quantity in whole units, a fractional part rounded away from zero (exact, unbounded). -/
def Quantity.wholeUnits (q : Quantity) : Int :=
  if 0 ≤ q.nano then (q.nano + 999999999) / 1000000000 else q.nano / 1000000000

/-- Library method `Value()`, an `int64`: the whole units of the quantity when they fit
`int64`, and `0` when they do not. -/
def Quantity.Value (q : Quantity) : Int :=
  if minInt64 ≤ q.wholeUnits ∧ q.wholeUnits ≤ maxInt64 then q.wholeUnits else 0

/-- Library method `Set(value)`: the receiver becomes the whole number `value`. -/
def Quantity.Set (_q : Quantity) (value : Int) : Quantity :=
  ⟨value * 1000000000⟩

/-- Library method `Sub(y)`: the receiver becomes the exact difference. -/
def Quantity.Sub (q y : Quantity) : Quantity :=
  ⟨q.nano - y.nano⟩

/-- Library method `Copy()`: a deep copy with the same value. -/
def Quantity.Copy (q : Quantity) : Quantity := q

/-- The library map `v1.ResourceList`, restricted to the three keys the program reads. -/
structure ResourceList where
  cpu : Option Quantity
  memory : Option Quantity
  pods : Option Quantity
deriving DecidableEq, Repr

/-- Library accessor `Cpu()`: the `cpu` entry, or the zero quantity. -/
def ResourceList.Cpu (r : ResourceList) : Quantity :=
  match r.cpu with
  | some val => val
  | none => Quantity.zero

/-- Library accessor `Memory()`: the `memory` entry, or the zero quantity. -/
def ResourceList.Memory (r : ResourceList) : Quantity :=
  match r.memory with
  | some val => val
  | none => Quantity.zero

/-- Library accessor `Pods()`: the `pods` entry, or the zero quantity. -/
def ResourceList.Pods (r : ResourceList) : Quantity :=
  match r.pods with
  | some val => val
  | none => Quantity.zero

/-- The empty resource list (no entries at all). -/
def ResourceList.none : ResourceList := ⟨Option.none, Option.none, Option.none⟩

/-- The part of `v1.ResourceRequirements` that is read. -/
structure V1ResourceRequirements where
  Limits : ResourceList
  Requests : ResourceList
deriving DecidableEq, Repr

/-- The part of the API object `v1.Container` that is read. -/
structure V1Container where
  Name : String
  Resources : V1ResourceRequirements
deriving DecidableEq, Repr

/-- The part of `v1.PodSpec` that is read. -/
structure V1PodSpec where
  NodeName : String
  Containers : List V1Container
deriving DecidableEq, Repr

/-- The part of the API object `v1.Pod` that is read. -/
structure V1Pod where
  Name : String
  Spec : V1PodSpec
deriving DecidableEq, Repr

/-- The part of `v1.NodeStatus` that is read. -/
structure V1NodeStatus where
  Allocatable : ResourceList
  Capacity : ResourceList
deriving DecidableEq, Repr

/-- The part of the API object `v1.Node` that is read. -/
structure V1Node where
  Name : String
  Labels : List (String × String)
  Status : V1NodeStatus
deriving DecidableEq, Repr

/-- The part of the API object `v1.Namespace` that is read. -/
structure V1Namespace where
  Name : String
deriving DecidableEq, Repr

/-! ## The heap of quantity cells -/

/-- A `*resource.Quantity`: `none` is the nil pointer. -/
abbrev QuantityPtr := Option Nat

/-- The quantity cells reachable through pointers, with the next free address. -/
structure Heap where
  cells : Nat → Quantity
  next : Nat

/-- The heap before anything is allocated. -/
def Heap.empty : Heap := ⟨fun _ => Quantity.zero, 0⟩

/-- Allocate a fresh cell holding `q`; returns its address. -/
def Heap.alloc (h : Heap) (q : Quantity) : Nat × Heap :=
  (h.next, ⟨fun a => if a = h.next then q else h.cells a, h.next + 1⟩)

/-- Overwrite the cell at address `a`. -/
def Heap.write (h : Heap) (a : Nat) (q : Quantity) : Heap :=
  ⟨fun b => if b = a then q else h.cells b, h.next⟩

/-! ## The program's types -/

/-- Go struct `Resource`: three quantity pointers. -/
structure Resource where
  CPU : QuantityPtr
  MEM : QuantityPtr
  POD : QuantityPtr
deriving DecidableEq, Repr

/-- Go struct `ClusterNode`. -/
structure ClusterNode where
  Name : String
  Allocatable : ResourceList
  Capacity : ResourceList
  Available : Resource
  Labels : List (String × String)
deriving DecidableEq, Repr

/-- Go struct `Container`. -/
structure Container where
  Container : V1Container
  Limits : ResourceList
  Requests : ResourceList
deriving DecidableEq, Repr

/-- Go struct `Pod`. -/
structure Pod where
  Name : String
  NodeName : String
  Containers : List Container
  NodePTR : ClusterNode
deriving DecidableEq, Repr

/-- Go struct `Namespace`. -/
structure Namespace where
  Name : String
  Pods : List Pod
deriving DecidableEq, Repr

/-- The zero value of `ClusterNode` (nil maps, nil pointers, empty name). -/
def ClusterNode.zero : ClusterNode :=
  ⟨"", ResourceList.none, ResourceList.none, ⟨none, none, none⟩, []⟩

/-- The zero value of `Pod`, the initial `tmpPod` of `GetPods`. -/
def Pod.zero : Pod := ⟨"", "", [], ClusterNode.zero⟩

/-! ## Loaders -/

/-- The inner loop of `GetPods`: append one `Container` per spec container to `tmpPod.Containers`. -/
def appendContainers (tmpPod : Pod) : List V1Container → Pod
  | [] => tmpPod
  | c :: rest =>
    appendContainers
      { tmpPod with Containers := tmpPod.Containers ++ [⟨c, c.Resources.Limits, c.Resources.Requests⟩] }
      rest

/-- The outer loop of `GetPods`, with the loop state `(tmpPod, pods)`; `tmpPod` is declared
once, before the loop, and carried from one iteration to the next. -/
def getPodsLoop (tmpPod : Pod) (pods : List Pod) : List V1Pod → List Pod
  | [] => pods
  | pod :: rest =>
    let tmpPod1 := { tmpPod with Name := pod.Name }
    let tmpPod2 := { tmpPod1 with NodeName := pod.Spec.NodeName }
    let tmpPod3 := appendContainers tmpPod2 pod.Spec.Containers
    getPodsLoop tmpPod3 (pods ++ [tmpPod3]) rest

/-- Function `GetPods`, on the pod listing the API returned for the namespace. -/
def GetPods (reqPods : List V1Pod) : List Pod :=
  getPodsLoop Pod.zero [] reqPods

/-- Function `GetNamespaces`; `podsOf` is the pod listing of each namespace. -/
def GetNamespaces (reqNs : List V1Namespace) (podsOf : String → List V1Pod) : List Namespace :=
  reqNs.foldl (fun nspace ns => nspace ++ [⟨ns.Name, GetPods (podsOf ns.Name)⟩]) []

/-- One iteration of the loop of `GetNodes`: three fresh copies of the allocatable
quantities, then the node is appended. -/
def getNodesStep (acc : List ClusterNode × Heap) (node : V1Node) : List ClusterNode × Heap :=
  let a1 := acc.2.alloc node.Status.Allocatable.Cpu.Copy
  let a2 := a1.2.alloc node.Status.Allocatable.Memory.Copy
  let a3 := a2.2.alloc node.Status.Allocatable.Pods.Copy
  (acc.1 ++ [⟨node.Name, node.Status.Allocatable, node.Status.Capacity,
              ⟨some a1.1, some a2.1, some a3.1⟩, node.Labels⟩], a3.2)

/-- The loop of `GetNodes` from a given loop state. -/
def getNodesLoop (acc : List ClusterNode × Heap) : List V1Node → List ClusterNode × Heap
  | [] => acc
  | node :: rest => getNodesLoop (getNodesStep acc node) rest

/-- Function `GetNodes`, on the node listing the API returned; it runs on a fresh heap. -/
def GetNodes (reqNodes : List V1Node) : List ClusterNode × Heap :=
  getNodesLoop ([], Heap.empty) reqNodes

/-! ## `Connect`: link loop and accounting loop -/

/-- The innermost link loop: every node whose name equals the pod's `NodeName` is stored
in `NodePTR`, in list order. -/
def linkPod (nodes : List ClusterNode) (podValue : Pod) : Pod :=
  nodes.foldl
    (fun p nodeValue => if nodeValue.Name = podValue.NodeName then { p with NodePTR := nodeValue } else p)
    podValue

/-- The link loop of `Connect` over all namespaces and their pods. -/
def linkLoop (nss : List Namespace) (nodes : List ClusterNode) : List Namespace :=
  nss.map (fun nsValue => { nsValue with Pods := nsValue.Pods.map (linkPod nodes) })

/-- The guard of the accounting loop, `!(cpu.Value() == 0 || memory.Value() == 0)`. -/
def charged (cntValue : Container) : Bool :=
  !(cntValue.Limits.Cpu.Value == 0 || cntValue.Limits.Memory.Value == 0)

/-- The body of the container loop: under the guard, `Sub` on the CPU cell and on the MEM cell. -/
def subLimits (avail : Resource) (h : Heap) (cntValue : Container) : Option Heap :=
  if charged cntValue then
    match avail.CPU with
    | none => none
    | some pc =>
      let h1 := h.write pc ((h.cells pc).Sub cntValue.Limits.Cpu)
      match avail.MEM with
      | none => none
      | some pm => some (h1.write pm ((h1.cells pm).Sub cntValue.Limits.Memory))
  else some h

/-- The container loop of the accounting loop. -/
def accountContainers (avail : Resource) : Heap → List Container → Option Heap
  | h, [] => some h
  | h, cntValue :: rest =>
    match subLimits avail h cntValue with
    | none => none
    | some h1 => accountContainers avail h1 rest

/-- The body of the pod loop: `POD.Set(POD.Value() - 1)` in `int64` arithmetic, then the
container loop. -/
def accountPod (h : Heap) (podValue : Pod) : Option Heap :=
  match podValue.NodePTR.Available.POD with
  | none => none
  | some pp =>
    accountContainers podValue.NodePTR.Available
      (h.write pp ((h.cells pp).Set (wrapInt64 ((h.cells pp).Value - 1)))) podValue.Containers

/-- The pod loop of the accounting loop. -/
def accountPods : Heap → List Pod → Option Heap
  | h, [] => some h
  | h, podValue :: rest =>
    match accountPod h podValue with
    | none => none
    | some h1 => accountPods h1 rest

/-- The accounting loop of `Connect` over all namespaces. -/
def accountLoop : Heap → List Namespace → Option Heap
  | h, [] => some h
  | h, nsValue :: rest =>
    match accountPods h nsValue.Pods with
    | none => none
    | some h1 => accountLoop h1 rest

/-- The loaded and processed graph: namespaces, nodes, and the heap with the ledger cells. -/
structure Snapshot where
  nss : List Namespace
  nodes : List ClusterNode
  heap : Heap

/-- The link loop of `Connect` as a step on the whole graph: only pods are written. -/
def linkStep (s : Snapshot) : Snapshot :=
  ⟨linkLoop s.nss s.nodes, s.nodes, s.heap⟩

/-- The accounting loop of `Connect` as a step on the whole graph: only ledger cells are
written; `none` is a panic. -/
def accountStep (s : Snapshot) : Option Snapshot :=
  match accountLoop s.heap s.nss with
  | none => none
  | some h1 => some ⟨s.nss, s.nodes, h1⟩

/-- The link loop followed by the accounting loop, as in `Connect`; `none` is a panic. -/
def connectLoops (s : Snapshot) : Option Snapshot :=
  accountStep (linkStep s)

/-- The graph as `Connect` holds it after loading: the nodes and ledger cells built by
`GetNodes` from the node listing, with the given namespaces. -/
def Snapshot.load (reqNodes : List V1Node) (nss : List Namespace) : Snapshot :=
  ⟨nss, (GetNodes reqNodes).1, (GetNodes reqNodes).2⟩

/-- Function `Connect` after the client is set up: load, link, account. -/
def Connect (reqNs : List V1Namespace) (podsOf : String → List V1Pod) (reqNodes : List V1Node) :
    Option Snapshot :=
  connectLoops (Snapshot.load reqNodes (GetNamespaces reqNs podsOf))

/-- Reading a ledger cell through a pointer (`none` for the nil pointer). -/
def deref (h : Heap) (p : QuantityPtr) : Option Quantity :=
  p.map h.cells

/-! ## Definitions used to state and prove the properties -/

/-- All pods of all namespaces, in traversal order. -/
def allPods : List Namespace → List Pod
  | [] => []
  | ns :: rest => ns.Pods ++ allPods rest

/-- Every pod's `NodeName` is the name of a loaded node. -/
def Resolved (nodes : List ClusterNode) (nss : List Namespace) : Prop :=
  ∀ p ∈ allPods nss, ∃ n ∈ nodes, n.Name = p.NodeName

/-- Node names are unique in the node list. -/
def UniqueNames (nodes : List ClusterNode) : Prop :=
  (nodes.map (fun n => n.Name)).Nodup

/-- The pods, over all namespaces, whose `NodeName` is `name`. -/
def podsOn (nss : List Namespace) (name : String) : List Pod :=
  (allPods nss).filter (fun p => decide (p.NodeName = name))

/-- The all-zero sentinel of the specification: CPU limit and memory limit both exactly zero. -/
def bothZero (c : Container) : Bool :=
  decide (c.Limits.Cpu.nano = 0) && decide (c.Limits.Memory.nano = 0)

/-- A zero in at least one of the two dimensions: CPU limit or memory limit exactly zero. -/
def someZero (c : Container) : Bool :=
  decide (c.Limits.Cpu.nano = 0) || decide (c.Limits.Memory.nano = 0)

/-- Sum of one dimension of the limits over all containers of the pods `ps`, leaving out the
containers selected by `skip`. -/
def limitSum (skip : Container → Bool) (dim : ResourceList → Quantity) (ps : List Pod) : Int :=
  (ps.map (fun p =>
    ((p.Containers.filter (fun c => !skip c)).map (fun c => (dim c.Limits).nano)).sum)).sum

/-- Limit aggregation with the skip rule `skip`: the loops return, and every node's
`Available.CPU` and `Available.MEM` are the allocatable amounts minus the limits of the
containers of the pods bound to the node that `skip` does not select. -/
def LimitAggregation (skip : Container → Bool) (reqNodes : List V1Node) (nss : List Namespace) :
    Prop :=
  ∃ s1, connectLoops (Snapshot.load reqNodes nss) = some s1 ∧
    ∀ N ∈ s1.nodes,
      deref s1.heap N.Available.CPU
        = some ⟨N.Allocatable.Cpu.nano - limitSum skip ResourceList.Cpu (podsOn nss N.Name)⟩ ∧
      deref s1.heap N.Available.MEM
        = some ⟨N.Allocatable.Memory.nano - limitSum skip ResourceList.Memory (podsOn nss N.Name)⟩

/-- A quantity that is a whole number of units. -/
def Quantity.Whole (q : Quantity) : Prop :=
  q.nano % 1000000000 = 0

/-- A quantity whose whole units fit `int64`, so that `Value()` returns them. -/
def Quantity.Fits (q : Quantity) : Prop :=
  minInt64 ≤ q.wholeUnits ∧ q.wholeUnits ≤ maxInt64

/-- Every CPU limit and memory limit of every container fits `int64` in whole units. -/
def LimitsFit (nss : List Namespace) : Prop :=
  ∀ p ∈ allPods nss, ∀ c ∈ p.Containers, c.Limits.Cpu.Fits ∧ c.Limits.Memory.Fits

/-- A node whose allocatable pod count can be decremented `n` times within `int64`: the
count fits `int64` and stays at or above the smallest `int64`. -/
def PodsFit (N : ClusterNode) (n : Nat) : Prop :=
  N.Allocatable.Pods.Fits ∧ minInt64 ≤ N.Allocatable.Pods.wholeUnits - (n : Int)

/-- Pod-slot conservation: the loops return the node list unchanged, and every node's
`Available.POD` is, in whole units, `Allocatable.Pods` minus the number of pods whose
`NodeName` is the node's name, and is that difference as a quantity when the allocatable
pod count is a whole number. -/
def PodSlotConservation (reqNodes : List V1Node) (nss : List Namespace) : Prop :=
  ∃ s1, connectLoops (Snapshot.load reqNodes nss) = some s1 ∧
    s1.nodes = (GetNodes reqNodes).1 ∧
    ∀ N ∈ s1.nodes, ∃ q, deref s1.heap N.Available.POD = some q ∧
      q.wholeUnits = N.Allocatable.Pods.wholeUnits - ((podsOn nss N.Name).length : Int) ∧
      (N.Allocatable.Pods.Whole →
        q = ⟨N.Allocatable.Pods.nano - ((podsOn nss N.Name).length : Int) * 1000000000⟩)

/-- Double counting: the loops return, a second run of the accounting loop over the
accounted graph returns, and for every node and each of CPU, MEM and POD, `Available` after
two passes is `Available` after one pass minus (`Allocatable` minus `Available` after one
pass), as exact quantities. -/
def DoubleCount (reqNodes : List V1Node) (nss : List Namespace) : Prop :=
  ∃ s1 s2, connectLoops (Snapshot.load reqNodes nss) = some s1 ∧ accountStep s1 = some s2 ∧
    s2.nodes = s1.nodes ∧
    ∀ N ∈ s1.nodes, ∃ c1 m1 d1 c2 m2 d2,
      deref s1.heap N.Available.CPU = some c1 ∧ deref s2.heap N.Available.CPU = some c2 ∧
      deref s1.heap N.Available.MEM = some m1 ∧ deref s2.heap N.Available.MEM = some m2 ∧
      deref s1.heap N.Available.POD = some d1 ∧ deref s2.heap N.Available.POD = some d2 ∧
      c2.nano = c1.nano - (N.Allocatable.Cpu.nano - c1.nano) ∧
      m2.nano = m1.nano - (N.Allocatable.Memory.nano - m1.nano) ∧
      d2.nano = d1.nano - (N.Allocatable.Pods.nano - d1.nano)

/-- The conversion `GetPods` applies to one spec container. -/
def toContainer (c : V1Container) : Container :=
  ⟨c, c.Resources.Limits, c.Resources.Requests⟩

/-- The spec containers of a list of listed pods, concatenated in order. -/
def containersOf : List V1Pod → List V1Container
  | [] => []
  | pod :: rest => pod.Spec.Containers ++ containersOf rest

/-- A container with its `Requests` (both the copied field and the embedded API object's) blanked. -/
def blankContainer (c : Container) : Container :=
  { c with
    Requests := ResourceList.none
    Container := { c.Container with
      Resources := { c.Container.Resources with Requests := ResourceList.none } } }

/-- A pod with the `Requests` of all its containers blanked. -/
def blankPod (p : Pod) : Pod :=
  { p with Containers := p.Containers.map blankContainer }

/-- A namespace with the `Requests` of all containers blanked. -/
def blankNamespace (ns : Namespace) : Namespace :=
  { ns with Pods := ns.Pods.map blankPod }

/-- Two namespace lists that are identical except for the `Requests` of their containers. -/
def SameExceptRequests (nss nss1 : List Namespace) : Prop :=
  nss.map blankNamespace = nss1.map blankNamespace

/-- The second pod is the first with its container list permuted. -/
def PodPerm (p q : Pod) : Prop :=
  q.Name = p.Name ∧ q.NodeName = p.NodeName ∧ q.NodePTR = p.NodePTR ∧
    q.Containers.Perm p.Containers

/-- The second pod list is the first with the containers of each pod permuted and then the
pods permuted. -/
def PodsPerm (ps qs : List Pod) : Prop :=
  ∃ mid, List.Forall₂ PodPerm ps mid ∧ mid.Perm qs

/-- The second namespace is the first with its pods, and their containers, permuted. -/
def NsPerm (a b : Namespace) : Prop :=
  b.Name = a.Name ∧ PodsPerm a.Pods b.Pods

/-- The second namespace list is the first with the namespace list, the pod list inside each
namespace and the container list inside each pod permuted. -/
def SnapPerm (nss nss1 : List Namespace) : Prop :=
  ∃ mid, List.Forall₂ NsPerm nss mid ∧ mid.Perm nss1

/-- The result of linking one pod: either `NodePTR` is the last node of the list with the
pod's `NodeName`, or no node has that name and `NodePTR` is the one the pod had. -/
def LinkResult (nodes : List ClusterNode) (p p1 : Pod) : Prop :=
  (∃ pre n post, nodes = pre ++ n :: post ∧ n.Name = p.NodeName ∧
      (∀ m ∈ post, m.Name ≠ p.NodeName) ∧ p1.NodePTR = n) ∨
  ((∀ n ∈ nodes, n.Name ≠ p.NodeName) ∧ p1.NodePTR = p.NodePTR)

/-! ### Proof-side closed forms -/

/-- The ledger pointers `GetNodes` gives the node at index `j`. -/
def slot (j : Nat) : Resource := ⟨some (3 * j), some (3 * j + 1), some (3 * j + 2)⟩

/-- Every node of the list holds the ledger pointers of its index. -/
def SlotNodes (nodes : List ClusterNode) : Prop :=
  ∀ (k : Nat) (N : ClusterNode), nodes[k]? = some N → N.Available = slot k

/-- What the container loop subtracts from the CPU cell. -/
def cpuCharge (cs : List Container) : Int :=
  ((cs.filter charged).map (fun c => c.Limits.Cpu.nano)).sum

/-- What the container loop subtracts from the MEM cell. -/
def memCharge (cs : List Container) : Int :=
  ((cs.filter charged).map (fun c => c.Limits.Memory.nano)).sum

/-- The heap after subtracting `cpu` and `mem` from the CPU and MEM cells of slot `j`. -/
def chargeHeap (j : Nat) (h : Heap) (cpu mem : Int) : Heap :=
  ⟨fun a => if a = 3 * j then ⟨(h.cells a).nano - cpu⟩
            else if a = 3 * j + 1 then ⟨(h.cells a).nano - mem⟩ else h.cells a, h.next⟩

/-- The pods whose `NodePTR` holds the ledger pointers of slot `i`. -/
def onSlot (i : Nat) (ps : List Pod) : List Pod :=
  ps.filter (fun p => decide (p.NodePTR.Available = slot i))

/-- Total CPU charge of the pods on slot `i`. -/
def cpuOf (i : Nat) (ps : List Pod) : Int :=
  ((onSlot i ps).map (fun p => cpuCharge p.Containers)).sum

/-- Total MEM charge of the pods on slot `i`. -/
def memOf (i : Nat) (ps : List Pod) : Int :=
  ((onSlot i ps).map (fun p => memCharge p.Containers)).sum

/-- The POD cell after one round of `Set(Value() - 1)`. -/
def podStep (q : Quantity) : Quantity :=
  q.Set (wrapInt64 (q.Value - 1))

/-- The POD cell after `n` rounds of `Set(Value() - 1)`. -/
def podAfter (q : Quantity) : Nat → Quantity
  | 0 => q
  | n + 1 => podAfter (podStep q) n

/-- The node the innermost link loop leaves in `NodePTR`, starting from `init`. -/
def lastMatch (nodes : List ClusterNode) (name : String) (init : ClusterNode) : ClusterNode :=
  nodes.foldl (fun acc n => if n.Name = name then n else acc) init

/-- The node `GetNodes` builds from a listed node when the next free address is `a`. -/
def mkNodeAt (a : Nat) (node : V1Node) : ClusterNode :=
  ⟨node.Name, node.Status.Allocatable, node.Status.Capacity,
    ⟨some a, some (a + 1), some (a + 2)⟩, node.Labels⟩

/-- The nodes `GetNodes` appends when the next free address is `base`. -/
def nodesFrom (base : Nat) : List V1Node → List ClusterNode
  | [] => []
  | node :: rest => mkNodeAt base node :: nodesFrom (base + 3) rest

/-- The three allocations of one iteration of `GetNodes`. -/
def alloc3 (h : Heap) (node : V1Node) : Heap :=
  (((h.alloc node.Status.Allocatable.Cpu.Copy).2.alloc node.Status.Allocatable.Memory.Copy).2.alloc
    node.Status.Allocatable.Pods.Copy).2

/-- The heap after the allocations of `GetNodes` for the listed nodes. -/
def heapFrom (h : Heap) : List V1Node → Heap
  | [] => h
  | node :: rest => heapFrom (alloc3 h node) rest

/-- The pods `GetPods` appends when `tmpPod` already holds the containers `acc`. -/
def podsFrom (acc : List Container) (ptr : ClusterNode) : List V1Pod → List Pod
  | [] => []
  | pod :: rest =>
    ⟨pod.Name, pod.Spec.NodeName, acc ++ pod.Spec.Containers.map toContainer, ptr⟩
      :: podsFrom (acc ++ pod.Spec.Containers.map toContainer) ptr rest

/-! ### A small cluster used to instantiate the properties -/

/-- A quantity of `m` thousandths of a unit (millicores). -/
def milli (m : Int) : Quantity := ⟨m * 1000000⟩

/-- A quantity of `n` mebibytes. -/
def mebi (n : Int) : Quantity := ⟨n * 1048576 * 1000000000⟩

/-- A quantity of `n` whole units. -/
def units (n : Int) : Quantity := ⟨n * 1000000000⟩

/-- Listed node `n1`: 2 cores, 4096Mi and 10 pods allocatable. -/
def nodeN1 : V1Node :=
  ⟨"n1", [("zone", "a")],
    ⟨⟨some (milli 2000), some (mebi 4096), some (units 10)⟩,
     ⟨some (milli 4000), some (mebi 8192), some (units 110)⟩⟩⟩

/-- Listed node `n2`: 1 core, 2048Mi and 1 pod allocatable. -/
def nodeN2 : V1Node :=
  ⟨"n2", [],
    ⟨⟨some (milli 1000), some (mebi 2048), some (units 1)⟩,
     ⟨some (milli 1000), some (mebi 2048), some (units 110)⟩⟩⟩

/-- The node listing of the sample cluster. -/
def sampleNodes : List V1Node := [nodeN1, nodeN2]

/-- A loaded container with the given limits and requests of 100m CPU and 64Mi. -/
def sampleContainer (name : String) (cpu mem : Option Quantity) : Container :=
  toContainer ⟨name, ⟨⟨cpu, mem, none⟩, ⟨some (milli 100), some (mebi 64), none⟩⟩⟩

/-- Container with limits 500m and 512Mi. -/
def cFull : Container := sampleContainer "full" (some (milli 500)) (some (mebi 512))

/-- Container with limits 250m and 256Mi. -/
def cSmall : Container := sampleContainer "small" (some (milli 250)) (some (mebi 256))

/-- Container with no limits entries at all. -/
def cNone : Container := sampleContainer "none" none none

/-- Container with a memory limit of 512Mi and no CPU limit. -/
def cMemOnly : Container := sampleContainer "memonly" none (some (mebi 512))

/-- Two namespaces: `p1` and `p2` on `n1`, `p3` and `p4` on `n2` (one pod more than `n2` allows). -/
def sampleNss : List Namespace :=
  [⟨"default", [⟨"p1", "n1", [cFull, cSmall], ClusterNode.zero⟩,
                ⟨"p2", "n1", [cNone], ClusterNode.zero⟩]⟩,
   ⟨"kube-system", [⟨"p3", "n2", [cSmall], ClusterNode.zero⟩,
                    ⟨"p4", "n2", [cMemOnly], ClusterNode.zero⟩]⟩]

/-- The namespaces of `sampleNss` with namespaces, pods of `default` and containers of `p1`
in another order. -/
def sampleNssPermuted : List Namespace :=
  [⟨"kube-system", [⟨"p3", "n2", [cSmall], ClusterNode.zero⟩,
                    ⟨"p4", "n2", [cMemOnly], ClusterNode.zero⟩]⟩,
   ⟨"default", [⟨"p2", "n1", [cNone], ClusterNode.zero⟩,
                ⟨"p1", "n1", [cSmall, cFull], ClusterNode.zero⟩]⟩]

/-- The namespaces of `sampleNss` with other requests on every container. -/
def sampleNssOtherRequests : List Namespace :=
  sampleNss.map (fun ns => { ns with Pods := ns.Pods.map (fun p =>
    { p with Containers := p.Containers.map (fun c =>
      { c with
        Requests := ⟨some (milli 900), some (mebi 900), none⟩
        Container := { c.Container with
          Resources := { c.Container.Resources with
            Requests := ⟨some (milli 900), some (mebi 900), none⟩ } } }) }) })

/-- One pod on `n1` whose only container has a memory limit and no CPU limit. -/
def oneZeroNss : List Namespace :=
  [⟨"default", [⟨"p1", "n1", [cMemOnly], ClusterNode.zero⟩]⟩]

/-- The scenario of the specification: one node, `p1` with limits 500m and 512Mi and `p2`
with all-zero limits. -/
def scenarioNss : List Namespace :=
  [⟨"default", [⟨"p1", "n1", [cFull], ClusterNode.zero⟩,
                ⟨"p2", "n1", [cNone], ClusterNode.zero⟩]⟩]

/-- One pod on `n1` whose only container has a CPU limit of `2^64` cores, beyond `int64`,
and a memory limit of 512Mi. -/
def oversizedLimitNss : List Namespace :=
  [⟨"default", [⟨"p1", "n1",
      [sampleContainer "oversized" (some (units 18446744073709551616)) (some (mebi 512))],
      ClusterNode.zero⟩]⟩]

/-- One pod on `n1` with one container with limits 500m and 512Mi. -/
def onePodNss : List Namespace :=
  [⟨"default", [⟨"p1", "n1", [cFull], ClusterNode.zero⟩]⟩]

/-- A listed node `n1` whose allocatable pod count is `10E` (ten times `10^18`), a whole
number that does not fit `int64`. -/
def nodeHugePods : V1Node :=
  ⟨"n1", [],
    ⟨⟨some (milli 2000), some (mebi 4096), some (units 10000000000000000000)⟩,
     ⟨some (milli 2000), some (mebi 4096), some (units 10000000000000000000)⟩⟩⟩

/-- A listed node `n1` whose allocatable pod count is `2500m` (two and a half). -/
def nodeHalfPod : V1Node :=
  ⟨"n1", [],
    ⟨⟨some (milli 2000), some (mebi 4096), some (milli 2500)⟩,
     ⟨some (milli 2000), some (mebi 4096), some (milli 2500)⟩⟩⟩

/-- A namespace listing with the single namespace `default`. -/
def sampleNamespaceListing : List V1Namespace := [⟨"default"⟩]

/-- Listed pod `web`, scheduled on `n1`, with one container. -/
def podWeb : V1Pod :=
  ⟨"web", ⟨"n1", [⟨"nginx", ⟨⟨some (milli 500), some (mebi 512), none⟩, ResourceList.none⟩⟩]⟩⟩

/-- Listed pod `pending`, not scheduled (empty `NodeName`), with one container. -/
def podPending : V1Pod :=
  ⟨"pending", ⟨"", [⟨"job", ⟨⟨some (milli 250), some (mebi 256), none⟩, ResourceList.none⟩⟩]⟩⟩

/-- A pod listing of two pods with one container each. -/
def samplePodListing : List V1Pod := [podWeb, podPending]

/-- The pod listing of every namespace: `samplePodListing` for `default`, empty otherwise. -/
def samplePodsOf (ns : String) : List V1Pod :=
  if ns = "default" then samplePodListing else []

/-- What is read from the graph after the loops: per node, the three ledger quantities. -/
def ledgers (r : Option Snapshot) : Option (List (Option Quantity × Option Quantity × Option Quantity)) :=
  r.map (fun s => s.nodes.map (fun N =>
    (deref s.heap N.Available.CPU, deref s.heap N.Available.MEM, deref s.heap N.Available.POD)))

/-! ## Lemmas on quantities, the accounting loop, the link loop and the loaders -/

theorem wrapInt64_of_fits (v : Int) (hv : minInt64 ≤ v ∧ v ≤ maxInt64) : wrapInt64 v = v := by
  unfold minInt64 maxInt64 at hv
  unfold wrapInt64
  omega

theorem Quantity.wholeUnits_eq_zero_iff (q : Quantity) : q.wholeUnits = 0 ↔ q.nano = 0 := by
  unfold Quantity.wholeUnits
  split <;> omega

theorem Quantity.wholeUnits_set (q : Quantity) (v : Int) : (q.Set v).wholeUnits = v := by
  unfold Quantity.wholeUnits Quantity.Set
  simp only
  split <;> omega

theorem Quantity.value_of_fits (q : Quantity) (hq : q.Fits) : q.Value = q.wholeUnits := by
  unfold Quantity.Value
  exact if_pos hq

theorem Quantity.value_of_zero (q : Quantity) (hq : q.nano = 0) : q.Value = 0 := by
  unfold Quantity.Value
  split
  · exact (Quantity.wholeUnits_eq_zero_iff q).mpr hq
  · rfl

theorem Quantity.value_eq_zero_iff (q : Quantity) (hq : q.Fits) : q.Value = 0 ↔ q.nano = 0 := by
  rw [Quantity.value_of_fits q hq]
  exact Quantity.wholeUnits_eq_zero_iff q

theorem charged_nonzero (c : Container) (hc : charged c = true) :
    c.Limits.Cpu.nano ≠ 0 ∧ c.Limits.Memory.nano ≠ 0 := by
  unfold charged at hc
  simp only [Bool.not_eq_true', Bool.or_eq_false_iff, beq_eq_false_iff_ne, ne_eq] at hc
  exact ⟨fun e => hc.1 (Quantity.value_of_zero _ e), fun e => hc.2 (Quantity.value_of_zero _ e)⟩

theorem charged_eq_not_someZero (c : Container) (hc : c.Limits.Cpu.Fits)
    (hm : c.Limits.Memory.Fits) : charged c = !someZero c := by
  unfold charged someZero
  by_cases h1 : c.Limits.Cpu.nano = 0 <;> by_cases h2 : c.Limits.Memory.nano = 0 <;>
    simp [Quantity.value_eq_zero_iff _ hc, Quantity.value_eq_zero_iff _ hm, h1, h2]

theorem Heap.ext_cells {h1 h2 : Heap} (hc : ∀ a, h1.cells a = h2.cells a) (hn : h1.next = h2.next) :
    h1 = h2 := by
  cases h1; cases h2
  simp only [Heap.mk.injEq]
  exact ⟨funext hc, hn⟩

theorem slot_inj {i j : Nat} (h : slot i = slot j) : i = j := by
  unfold slot at h
  simp only [Resource.mk.injEq, Option.some.injEq] at h
  omega

theorem subLimits_slot (j : Nat) (h : Heap) (c : Container) :
    subLimits (slot j) h c
      = some (chargeHeap j h (cpuCharge [c]) (memCharge [c])) := by
  unfold subLimits cpuCharge memCharge
  by_cases hc : charged c = true
  · simp only [hc, if_true, slot, List.filter_cons_of_pos, List.filter_nil, List.map, List.sum_cons,
      List.sum_nil, add_zero, Option.some.injEq]
    apply Heap.ext_cells
    · intro a
      simp only [Heap.write, chargeHeap, Quantity.Sub]
      by_cases h1 : a = 3 * j
      · subst h1
        have : ¬ (3 * j = 3 * j + 1) := by omega
        simp [this]
      · by_cases h2 : a = 3 * j + 1
        · subst h2; simp
        · simp [h1, h2]
    · rfl
  · have hc2 : charged c = false := by simpa using hc
    simp only [hc2, Bool.false_eq_true, if_false, Option.some.injEq]
    apply Heap.ext_cells
    · intro a
      simp [chargeHeap, hc2]
    · rfl

theorem chargeHeap_chargeHeap (j : Nat) (h : Heap) (a b c d : Int) :
    chargeHeap j (chargeHeap j h a b) c d = chargeHeap j h (a + c) (b + d) := by
  apply Heap.ext_cells
  · intro x
    simp only [chargeHeap]
    by_cases h1 : x = 3 * j
    · simp [h1]; omega
    · by_cases h2 : x = 3 * j + 1
      · simp [h2]; omega
      · simp [h1, h2]
  · rfl

theorem chargeHeap_zero (j : Nat) (h : Heap) : chargeHeap j h 0 0 = h := by
  apply Heap.ext_cells
  · intro x
    simp only [chargeHeap, sub_zero]
    split
    · rfl
    · split <;> rfl
  · rfl

theorem cpuCharge_cons (c : Container) (cs : List Container) :
    cpuCharge (c :: cs) = cpuCharge [c] + cpuCharge cs := by
  unfold cpuCharge
  by_cases hc : charged c = true <;> simp [hc]

theorem memCharge_cons (c : Container) (cs : List Container) :
    memCharge (c :: cs) = memCharge [c] + memCharge cs := by
  unfold memCharge
  by_cases hc : charged c = true <;> simp [hc]

theorem accountContainers_slot (j : Nat) (cs : List Container) (h : Heap) :
    accountContainers (slot j) h cs = some (chargeHeap j h (cpuCharge cs) (memCharge cs)) := by
  induction cs generalizing h with
  | nil => simp [accountContainers, cpuCharge, memCharge, chargeHeap_zero]
  | cons c cs ih =>
    simp only [accountContainers, subLimits_slot, ih, chargeHeap_chargeHeap]
    rw [← cpuCharge_cons, ← memCharge_cons]

theorem accountPod_slot (j : Nat) (h : Heap) (p : Pod) (hp : p.NodePTR.Available = slot j) :
    accountPod h p
      = some (chargeHeap j (h.write (3 * j + 2) (podStep (h.cells (3 * j + 2))))
          (cpuCharge p.Containers) (memCharge p.Containers)) := by
  unfold accountPod
  rw [hp]
  simp only [slot]
  exact accountContainers_slot j p.Containers _

theorem onSlot_cons_same (i : Nat) (p : Pod) (ps : List Pod) (hp : p.NodePTR.Available = slot i) :
    onSlot i (p :: ps) = p :: onSlot i ps := by
  simp [onSlot, hp]

theorem onSlot_cons_other (i j : Nat) (p : Pod) (ps : List Pod) (hp : p.NodePTR.Available = slot j)
    (hij : i ≠ j) : onSlot i (p :: ps) = onSlot i ps := by
  have : ¬ (slot j = slot i) := fun e => hij (slot_inj e).symm
  simp [onSlot, hp, this]

theorem podAfter_succ (q : Quantity) (n : Nat) :
    podAfter (podStep q) n = podAfter q (n + 1) := rfl

theorem accountPods_slots (ps : List Pod) (h : Heap)
    (hps : ∀ p ∈ ps, ∃ j, p.NodePTR.Available = slot j) :
    ∃ h1, accountPods h ps = some h1 ∧ h1.next = h.next ∧ ∀ i,
      h1.cells (3 * i) = ⟨(h.cells (3 * i)).nano - cpuOf i ps⟩ ∧
      h1.cells (3 * i + 1) = ⟨(h.cells (3 * i + 1)).nano - memOf i ps⟩ ∧
      h1.cells (3 * i + 2) = podAfter (h.cells (3 * i + 2)) (onSlot i ps).length := by
  induction ps generalizing h with
  | nil =>
    refine ⟨h, rfl, rfl, fun i => ?_⟩
    simp [cpuOf, memOf, onSlot, podAfter]
  | cons p ps ih =>
    obtain ⟨j, hj⟩ := hps p (List.mem_cons_self _ _)
    have hrest : ∀ p1 ∈ ps, ∃ j, p1.NodePTR.Available = slot j :=
      fun p1 hp1 => hps p1 (List.mem_cons_of_mem _ hp1)
    obtain ⟨h1, hrun, hnext, hcells⟩ := ih _ hrest
    refine ⟨h1, ?_, ?_, fun i => ?_⟩
    · simp only [accountPods, accountPod_slot j h p hj]
      exact hrun
    · rw [hnext]; rfl
    · obtain ⟨hc, hm, hd⟩ := hcells i
      by_cases hij : i = j
      · subst hij
        have e1 : ¬ (3 * i = 3 * i + 2) := by omega
        have e2 : ¬ (3 * i + 1 = 3 * i) := by omega
        have e3 : ¬ (3 * i + 1 = 3 * i + 2) := by omega
        have e4 : ¬ (3 * i + 2 = 3 * i) := by omega
        have e5 : ¬ (3 * i + 2 = 3 * i + 1) := by omega
        refine ⟨?_, ?_, ?_⟩
        · rw [hc]
          simp only [chargeHeap, Heap.write, if_true, e1, if_false, cpuOf, onSlot_cons_same i p ps hj,
            List.map_cons, List.sum_cons, Quantity.mk.injEq]
          omega
        · rw [hm]
          simp only [chargeHeap, Heap.write, if_true, e2, e3, if_false, memOf,
            onSlot_cons_same i p ps hj, List.map_cons, List.sum_cons, Quantity.mk.injEq]
          omega
        · rw [hd]
          simp only [chargeHeap, Heap.write, if_true, e4, e5, if_false,
            onSlot_cons_same i p ps hj, List.length_cons]
          exact podAfter_succ _ _
      · have e1 : ¬ (3 * i = 3 * j) := by omega
        have e2 : ¬ (3 * i = 3 * j + 1) := by omega
        have e3 : ¬ (3 * i = 3 * j + 2) := by omega
        have e4 : ¬ (3 * i + 1 = 3 * j) := by omega
        have e5 : ¬ (3 * i + 1 = 3 * j + 1) := by omega
        have e6 : ¬ (3 * i + 1 = 3 * j + 2) := by omega
        have e7 : ¬ (3 * i + 2 = 3 * j) := by omega
        have e8 : ¬ (3 * i + 2 = 3 * j + 1) := by omega
        have e9 : ¬ (3 * i + 2 = 3 * j + 2) := by omega
        refine ⟨?_, ?_, ?_⟩
        · rw [hc]
          simp only [chargeHeap, Heap.write, e1, e2, e3, if_false, cpuOf,
            onSlot_cons_other i j p ps hj hij]
        · rw [hm]
          simp only [chargeHeap, Heap.write, e4, e5, e6, if_false, memOf,
            onSlot_cons_other i j p ps hj hij]
        · rw [hd]
          simp only [chargeHeap, Heap.write, e7, e8, e9, if_false,
            onSlot_cons_other i j p ps hj hij]

theorem accountPods_append (ps qs : List Pod) (h : Heap) :
    accountPods h (ps ++ qs)
      = match accountPods h ps with
        | none => none
        | some h1 => accountPods h1 qs := by
  induction ps generalizing h with
  | nil => rfl
  | cons p ps ih =>
    simp only [List.cons_append, accountPods]
    cases accountPod h p with
    | none => rfl
    | some h1 => exact ih h1

theorem accountLoop_eq_accountPods (nss : List Namespace) (h : Heap) :
    accountLoop h nss = accountPods h (allPods nss) := by
  induction nss generalizing h with
  | nil => rfl
  | cons ns rest ih =>
    simp only [accountLoop, allPods, accountPods_append]
    cases accountPods h ns.Pods with
    | none => rfl
    | some h1 => exact ih h1

theorem linkPod_fold (nodes : List ClusterNode) (name : String) (p : Pod) :
    nodes.foldl (fun p nodeValue => if nodeValue.Name = name then { p with NodePTR := nodeValue } else p) p
      = { p with NodePTR := lastMatch nodes name p.NodePTR } := by
  induction nodes generalizing p with
  | nil => rfl
  | cons n rest ih =>
    simp only [List.foldl_cons, lastMatch]
    rw [ih]
    by_cases hn : n.Name = name <;> simp [hn, lastMatch]

theorem linkPod_eq (nodes : List ClusterNode) (p : Pod) :
    linkPod nodes p = { p with NodePTR := lastMatch nodes p.NodeName p.NodePTR } :=
  linkPod_fold nodes p.NodeName p

theorem lastMatch_none (nodes : List ClusterNode) (name : String) (init : ClusterNode)
    (hno : ∀ n ∈ nodes, n.Name ≠ name) : lastMatch nodes name init = init := by
  induction nodes generalizing init with
  | nil => rfl
  | cons n rest ih =>
    have hn : n.Name ≠ name := hno n (List.mem_cons_self _ _)
    simp only [lastMatch, List.foldl_cons, hn, if_false]
    exact ih init (fun m hm => hno m (List.mem_cons_of_mem _ hm))

theorem lastMatch_some (nodes : List ClusterNode) (name : String) (init : ClusterNode)
    (hex : ∃ n ∈ nodes, n.Name = name) :
    ∃ (j : Nat) (n : ClusterNode), nodes[j]? = some n ∧ n.Name = name ∧
      lastMatch nodes name init = n ∧
      ∀ (k : Nat) (m : ClusterNode), j < k → nodes[k]? = some m → m.Name ≠ name := by
  induction nodes generalizing init with
  | nil => simp at hex
  | cons x rest ih =>
    by_cases hrest : ∃ n ∈ rest, n.Name = name
    · obtain ⟨j, n, hj, hn, hl, hlast⟩ := ih (if x.Name = name then x else init) hrest
      refine ⟨j + 1, n, by simpa using hj, hn, ?_, ?_⟩
      · simpa [lastMatch] using hl
      · intro k m hk hkm
        cases k with
        | zero => omega
        | succ k =>
          exact hlast k m (by omega) (by simpa using hkm)
    · have hno : ∀ n ∈ rest, n.Name ≠ name := fun n hn e => hrest ⟨n, hn, e⟩
      have hx : x.Name = name := by
        obtain ⟨n, hn, e⟩ := hex
        rcases List.mem_cons.mp hn with h1 | h1
        · rw [← h1]; exact e
        · exact absurd e (hno n h1)
      refine ⟨0, x, by simp, hx, ?_, ?_⟩
      · simp only [lastMatch, List.foldl_cons, hx, if_true]
        exact lastMatch_none rest name x hno
      · intro k m hk hkm
        cases k with
        | zero => omega
        | succ k =>
          have : rest[k]? = some m := by simpa using hkm
          exact hno m (List.getElem?_mem this)

theorem nodesFrom_getElem? (items : List V1Node) (base k : Nat) :
    (nodesFrom base items)[k]? = (items[k]?).map (mkNodeAt (base + 3 * k)) := by
  induction items generalizing base k with
  | nil => simp [nodesFrom]
  | cons it rest ih =>
    cases k with
    | zero => simp [nodesFrom]
    | succ k =>
      have e : base + 3 + 3 * k = base + 3 * (k + 1) := by omega
      simp only [nodesFrom, List.getElem?_cons_succ, ih, e]

theorem nodesFrom_length (items : List V1Node) (base : Nat) :
    (nodesFrom base items).length = items.length := by
  induction items generalizing base with
  | nil => rfl
  | cons it rest ih => simp [nodesFrom, ih]

theorem alloc3_next (h : Heap) (node : V1Node) : (alloc3 h node).next = h.next + 3 := rfl

theorem heapFrom_below (items : List V1Node) (h : Heap) (a : Nat) (ha : a < h.next) :
    (heapFrom h items).cells a = h.cells a := by
  induction items generalizing h with
  | nil => rfl
  | cons it rest ih =>
    simp only [heapFrom]
    rw [ih (alloc3 h it) (by rw [alloc3_next]; omega)]
    have e1 : ¬ (a = h.next + 1 + 1) := by omega
    have e2 : ¬ (a = h.next + 1) := by omega
    have e3 : ¬ (a = h.next) := by omega
    simp [alloc3, Heap.alloc, e1, e2, e3]

theorem heapFrom_cells (items : List V1Node) (h : Heap) (k : Nat) (node : V1Node)
    (hk : items[k]? = some node) :
    (heapFrom h items).cells (h.next + 3 * k) = node.Status.Allocatable.Cpu ∧
    (heapFrom h items).cells (h.next + 3 * k + 1) = node.Status.Allocatable.Memory ∧
    (heapFrom h items).cells (h.next + 3 * k + 2) = node.Status.Allocatable.Pods := by
  induction items generalizing h k with
  | nil => simp at hk
  | cons it rest ih =>
    cases k with
    | zero =>
      have hit : it = node := by simpa using hk
      subst hit
      simp only [heapFrom, Nat.mul_zero, Nat.add_zero]
      rw [heapFrom_below rest _ _ (by rw [alloc3_next]; omega),
        heapFrom_below rest _ _ (by rw [alloc3_next]; omega),
        heapFrom_below rest _ _ (by rw [alloc3_next]; omega)]
      have e1 : ¬ (h.next = h.next + 1 + 1) := by omega
      have e2 : ¬ (h.next = h.next + 1) := by omega
      have e3 : ¬ (h.next + 1 = h.next + 1 + 1) := by omega
      simp [alloc3, Heap.alloc, Quantity.Copy, e1, e2, e3]
    | succ k =>
      have hk1 : rest[k]? = some node := by simpa using hk
      have := ih (alloc3 h it) k hk1
      simp only [heapFrom]
      rw [alloc3_next] at this
      have a1 : h.next + 3 * (k + 1) = h.next + 3 + 3 * k := by omega
      rw [a1]
      exact this

theorem getNodesLoop_eq (items : List V1Node) (acc : List ClusterNode) (h : Heap) :
    getNodesLoop (acc, h) items = (acc ++ nodesFrom h.next items, heapFrom h items) := by
  induction items generalizing acc h with
  | nil => simp [getNodesLoop, nodesFrom, heapFrom]
  | cons it rest ih =>
    have hstep : getNodesStep (acc, h) it = (acc ++ [mkNodeAt h.next it], alloc3 h it) := rfl
    simp only [getNodesLoop, hstep, ih, nodesFrom, heapFrom, alloc3_next, List.append_assoc,
      List.singleton_append]

theorem GetNodes_eq (items : List V1Node) :
    GetNodes items = (nodesFrom 0 items, heapFrom Heap.empty items) := by
  unfold GetNodes
  rw [getNodesLoop_eq]
  simp [Heap.empty]

theorem allPods_linkLoop (nss : List Namespace) (nodes : List ClusterNode) :
    allPods (linkLoop nss nodes) = (allPods nss).map (linkPod nodes) := by
  induction nss with
  | nil => rfl
  | cons ns rest ih =>
    have : linkLoop (ns :: rest) nodes
        = { ns with Pods := ns.Pods.map (linkPod nodes) } :: linkLoop rest nodes := rfl
    rw [this]
    simp only [allPods, List.map_append, ih]

theorem linkPod_Containers (nodes : List ClusterNode) (p : Pod) :
    (linkPod nodes p).Containers = p.Containers := by
  rw [linkPod_eq]

theorem linkPod_NodeName (nodes : List ClusterNode) (p : Pod) :
    (linkPod nodes p).NodeName = p.NodeName := by
  rw [linkPod_eq]

theorem linkPod_Name (nodes : List ClusterNode) (p : Pod) :
    (linkPod nodes p).Name = p.Name := by
  rw [linkPod_eq]

theorem linkPod_NodePTR (nodes : List ClusterNode) (p : Pod) :
    (linkPod nodes p).NodePTR = lastMatch nodes p.NodeName p.NodePTR := by
  rw [linkPod_eq]

theorem linked_slots (nodes : List ClusterNode) (nss : List Namespace)
    (hwf : SlotNodes nodes) (hres : Resolved nodes nss) :
    ∀ p ∈ (allPods nss).map (linkPod nodes), ∃ j, p.NodePTR.Available = slot j := by
  intro p hp
  obtain ⟨p0, hp0, rfl⟩ := List.mem_map.mp hp
  obtain ⟨j, n, hj, _, hl, _⟩ := lastMatch_some nodes p0.NodeName p0.NodePTR (hres p0 hp0)
  exact ⟨j, by rw [linkPod_NodePTR, hl]; exact hwf j n hj⟩

theorem unique_index (nodes : List ClusterNode) (hu : UniqueNames nodes) (j k : Nat)
    (N M : ClusterNode) (hj : nodes[j]? = some N) (hk : nodes[k]? = some M)
    (hname : N.Name = M.Name) : j = k := by
  induction nodes generalizing j k with
  | nil => simp at hj
  | cons x rest ih =>
    have hu1 : UniqueNames rest := (List.nodup_cons.mp hu).2
    have hx : ∀ m ∈ rest, m.Name ≠ x.Name := by
      intro m hm e
      exact (List.nodup_cons.mp hu).1 (List.mem_map.mpr ⟨m, hm, e⟩)
    cases j with
    | zero =>
      cases k with
      | zero => rfl
      | succ k =>
        have h1 : x = N := by simpa using hj
        have h2 : rest[k]? = some M := by simpa using hk
        exact absurd (by rw [← h1] at hname; exact hname.symm) (hx M (List.getElem?_mem h2))
    | succ j =>
      cases k with
      | zero =>
        have h1 : x = M := by simpa using hk
        have h2 : rest[j]? = some N := by simpa using hj
        exact absurd (by rw [← h1] at hname; exact hname) (hx N (List.getElem?_mem h2))
      | succ k =>
        have := ih hu1 j k (by simpa using hj) (by simpa using hk)
        omega

theorem onSlot_linked (nodes : List ClusterNode) (nss : List Namespace)
    (hwf : SlotNodes nodes) (hres : Resolved nodes nss) (hu : UniqueNames nodes)
    (k : Nat) (N : ClusterNode) (hk : nodes[k]? = some N) :
    onSlot k ((allPods nss).map (linkPod nodes)) = (podsOn nss N.Name).map (linkPod nodes) := by
  unfold onSlot podsOn
  rw [List.filter_map]
  congr 1
  apply List.filter_congr
  intro p hp
  obtain ⟨j, n, hj, hn, hl, _⟩ := lastMatch_some nodes p.NodeName p.NodePTR (hres p hp)
  simp only [Function.comp, linkPod_NodePTR, hl, hwf j n hj]
  by_cases hjk : j = k
  · subst hjk
    have : n = N := by rw [hj] at hk; exact Option.some.inj hk
    subst this
    simp [hn]
  · have h1 : ¬ (slot j = slot k) := fun e => hjk (slot_inj e)
    have h2 : ¬ (p.NodeName = N.Name) := by
      intro e
      exact hjk (unique_index nodes hu j k n N hj hk (by rw [hn, e]))
    simp [h1, h2]

theorem GetNodes_slotNodes (items : List V1Node) : SlotNodes (GetNodes items).1 := by
  intro k N hk
  rw [GetNodes_eq] at hk
  simp only [nodesFrom_getElem?, Option.map_eq_some', Nat.zero_add] at hk
  obtain ⟨it, _, rfl⟩ := hk
  rfl

theorem GetNodes_cells (items : List V1Node) (k : Nat) (N : ClusterNode)
    (hk : (GetNodes items).1[k]? = some N) :
    (GetNodes items).2.cells (3 * k) = N.Allocatable.Cpu ∧
    (GetNodes items).2.cells (3 * k + 1) = N.Allocatable.Memory ∧
    (GetNodes items).2.cells (3 * k + 2) = N.Allocatable.Pods := by
  rw [GetNodes_eq] at hk ⊢
  simp only [nodesFrom_getElem?, Option.map_eq_some', Nat.zero_add] at hk
  obtain ⟨it, hit, rfl⟩ := hk
  have := heapFrom_cells items Heap.empty k it hit
  simpa [Heap.empty, mkNodeAt] using this

theorem filter_charged_eq (cs : List Container)
    (hfit : ∀ c ∈ cs, c.Limits.Cpu.Fits ∧ c.Limits.Memory.Fits) :
    cs.filter charged = cs.filter (fun c => !someZero c) :=
  List.filter_congr (fun c hc => charged_eq_not_someZero c (hfit c hc).1 (hfit c hc).2)

theorem mem_podsOn (nss : List Namespace) (name : String) (p : Pod) (hp : p ∈ podsOn nss name) :
    p ∈ allPods nss ∧ p.NodeName = name := by
  unfold podsOn at hp
  simpa using hp

theorem accountLoop_linked (nodes : List ClusterNode) (nss : List Namespace) (h : Heap)
    (hwf : SlotNodes nodes) (hres : Resolved nodes nss) :
    ∃ h1, accountLoop h (linkLoop nss nodes) = some h1 ∧ h1.next = h.next ∧ ∀ i,
      h1.cells (3 * i) = ⟨(h.cells (3 * i)).nano - cpuOf i ((allPods nss).map (linkPod nodes))⟩ ∧
      h1.cells (3 * i + 1)
        = ⟨(h.cells (3 * i + 1)).nano - memOf i ((allPods nss).map (linkPod nodes))⟩ ∧
      h1.cells (3 * i + 2)
        = podAfter (h.cells (3 * i + 2)) (onSlot i ((allPods nss).map (linkPod nodes))).length := by
  rw [accountLoop_eq_accountPods, allPods_linkLoop]
  exact accountPods_slots _ h (linked_slots nodes nss hwf hres)

theorem connectLoops_some (s : Snapshot) (h1 : Heap)
    (hrun : accountLoop s.heap (linkLoop s.nss s.nodes) = some h1) :
    connectLoops s = some ⟨linkLoop s.nss s.nodes, s.nodes, h1⟩ := by
  simp only [connectLoops, accountStep, linkStep, hrun]

theorem cpuOf_linked (nodes : List ClusterNode) (nss : List Namespace)
    (hwf : SlotNodes nodes) (hres : Resolved nodes nss) (hu : UniqueNames nodes)
    (hfit : LimitsFit nss) (k : Nat) (N : ClusterNode) (hk : nodes[k]? = some N) :
    cpuOf k ((allPods nss).map (linkPod nodes))
      = limitSum someZero ResourceList.Cpu (podsOn nss N.Name) := by
  unfold cpuOf limitSum cpuCharge
  rw [onSlot_linked nodes nss hwf hres hu k N hk, List.map_map]
  congr 1
  apply List.map_congr_left
  intro p hp
  simp only [Function.comp, linkPod_Containers]
  rw [filter_charged_eq p.Containers (hfit p (mem_podsOn nss N.Name p hp).1)]

theorem memOf_linked (nodes : List ClusterNode) (nss : List Namespace)
    (hwf : SlotNodes nodes) (hres : Resolved nodes nss) (hu : UniqueNames nodes)
    (hfit : LimitsFit nss) (k : Nat) (N : ClusterNode) (hk : nodes[k]? = some N) :
    memOf k ((allPods nss).map (linkPod nodes))
      = limitSum someZero ResourceList.Memory (podsOn nss N.Name) := by
  unfold memOf limitSum memCharge
  rw [onSlot_linked nodes nss hwf hres hu k N hk, List.map_map]
  congr 1
  apply List.map_congr_left
  intro p hp
  simp only [Function.comp, linkPod_Containers]
  rw [filter_charged_eq p.Containers (hfit p (mem_podsOn nss N.Name p hp).1)]

theorem podStep_of_fits (q : Quantity) (hq : q.Fits) (hlow : minInt64 ≤ q.wholeUnits - 1) :
    podStep q = ⟨(q.wholeUnits - 1) * 1000000000⟩ := by
  unfold podStep
  rw [Quantity.value_of_fits q hq, wrapInt64_of_fits _ ⟨hlow, by have := hq.2; omega⟩]
  rfl

theorem podAfter_of_fits (n : Nat) (q : Quantity) (hq : q.Fits)
    (hlow : minInt64 ≤ q.wholeUnits - ((n + 1 : Nat) : Int)) :
    podAfter q (n + 1) = ⟨(q.wholeUnits - ((n + 1 : Nat) : Int)) * 1000000000⟩ := by
  induction n generalizing q with
  | zero =>
    show podStep q = _
    rw [podStep_of_fits q hq (by simpa using hlow)]
    simp
  | succ n ih =>
    have h1 : minInt64 ≤ q.wholeUnits - 1 := by push_cast at hlow; omega
    show podAfter (podStep q) (n + 1) = _
    rw [podStep_of_fits q hq h1]
    have hw : (⟨(q.wholeUnits - 1) * 1000000000⟩ : Quantity).wholeUnits = q.wholeUnits - 1 :=
      Quantity.wholeUnits_set q (q.wholeUnits - 1)
    have hfit : (⟨(q.wholeUnits - 1) * 1000000000⟩ : Quantity).Fits := by
      unfold Quantity.Fits
      rw [hw]
      exact ⟨h1, by have := hq.2; omega⟩
    rw [ih _ hfit (by rw [hw]; push_cast at hlow ⊢; omega), hw]
    congr 1
    push_cast
    ring

theorem podAfter_wholeUnits (q : Quantity) (n : Nat) (hq : q.Fits)
    (hlow : minInt64 ≤ q.wholeUnits - (n : Int)) :
    (podAfter q n).wholeUnits = q.wholeUnits - (n : Int) := by
  cases n with
  | zero => simp [podAfter]
  | succ n =>
    rw [podAfter_of_fits n q hq hlow]
    exact Quantity.wholeUnits_set q _

theorem Quantity.whole_nano (q : Quantity) (hq : q.Whole) :
    q.nano = q.wholeUnits * 1000000000 := by
  unfold Quantity.Whole at hq
  unfold Quantity.wholeUnits
  split <;> omega

theorem podAfter_whole (q : Quantity) (n : Nat) (hq : q.Fits)
    (hlow : minInt64 ≤ q.wholeUnits - (n : Int)) (hw : q.Whole) :
    podAfter q n = ⟨q.nano - n * 1000000000⟩ := by
  cases n with
  | zero => simp [podAfter]
  | succ n =>
    rw [podAfter_of_fits n q hq hlow, Quantity.whole_nano q hw]
    congr 1
    ring

theorem podAfter_add (q : Quantity) (m n : Nat) :
    podAfter (podAfter q m) n = podAfter q (m + n) := by
  induction m generalizing q with
  | zero => simp [podAfter]
  | succ m ih =>
    have e : m + 1 + n = (m + n) + 1 := by omega
    rw [e]
    exact ih (podStep q)

theorem limitAggregation_someZero (reqNodes : List V1Node) (nss : List Namespace)
    (hu : UniqueNames (GetNodes reqNodes).1) (hres : Resolved (GetNodes reqNodes).1 nss)
    (hfit : LimitsFit nss) :
    ∃ s1, connectLoops (Snapshot.load reqNodes nss) = some s1 ∧
      s1.nodes = (GetNodes reqNodes).1 ∧
      ∀ N ∈ s1.nodes,
        deref s1.heap N.Available.CPU
          = some ⟨N.Allocatable.Cpu.nano - limitSum someZero ResourceList.Cpu (podsOn nss N.Name)⟩ ∧
        deref s1.heap N.Available.MEM
          = some ⟨N.Allocatable.Memory.nano
              - limitSum someZero ResourceList.Memory (podsOn nss N.Name)⟩ := by
  have hwf := GetNodes_slotNodes reqNodes
  obtain ⟨h1, hrun, _, hcells⟩ :=
    accountLoop_linked (GetNodes reqNodes).1 nss (GetNodes reqNodes).2 hwf hres
  refine ⟨_, connectLoops_some (Snapshot.load reqNodes nss) h1 hrun, rfl, ?_⟩
  intro N hN
  obtain ⟨k, hk⟩ := List.getElem?_of_mem hN
  have hk1 : (GetNodes reqNodes).1[k]? = some N := hk
  obtain ⟨hc, hm, _⟩ := hcells k
  obtain ⟨ic, im, _⟩ := GetNodes_cells reqNodes k N hk1
  rw [hwf k N hk1]
  simp only [deref, slot, Option.map_some', hc, hm, ic, im,
    cpuOf_linked _ nss hwf hres hu hfit k N hk1, memOf_linked _ nss hwf hres hu hfit k N hk1,
    and_self]

theorem podLedger_loaded (reqNodes : List V1Node) (nss : List Namespace)
    (hu : UniqueNames (GetNodes reqNodes).1) (hres : Resolved (GetNodes reqNodes).1 nss) :
    ∃ s1, connectLoops (Snapshot.load reqNodes nss) = some s1 ∧
      s1.nodes = (GetNodes reqNodes).1 ∧
      ∀ N ∈ s1.nodes, deref s1.heap N.Available.POD
        = some (podAfter N.Allocatable.Pods (podsOn nss N.Name).length) := by
  have hwf := GetNodes_slotNodes reqNodes
  obtain ⟨h1, hrun, _, hcells⟩ :=
    accountLoop_linked (GetNodes reqNodes).1 nss (GetNodes reqNodes).2 hwf hres
  refine ⟨_, connectLoops_some (Snapshot.load reqNodes nss) h1 hrun, rfl, ?_⟩
  intro N hN
  obtain ⟨k, hk⟩ := List.getElem?_of_mem hN
  have hk1 : (GetNodes reqNodes).1[k]? = some N := hk
  obtain ⟨_, _, hd⟩ := hcells k
  obtain ⟨_, _, ip⟩ := GetNodes_cells reqNodes k N hk1
  have hlen : (onSlot k ((allPods nss).map (linkPod (GetNodes reqNodes).1))).length
      = (podsOn nss N.Name).length := by
    rw [onSlot_linked _ nss hwf hres hu k N hk1, List.length_map]
  rw [hwf k N hk1]
  simp only [deref, slot, Option.map_some', hd, ip, hlen]

theorem onSlot_linked_le (nodes : List ClusterNode) (nss : List Namespace)
    (hwf : SlotNodes nodes) (hres : Resolved nodes nss)
    (k : Nat) (N : ClusterNode) (hk : nodes[k]? = some N) :
    (onSlot k ((allPods nss).map (linkPod nodes))).length ≤ (podsOn nss N.Name).length := by
  unfold onSlot podsOn
  rw [List.filter_map, List.length_map, ← List.countP_eq_length_filter,
    ← List.countP_eq_length_filter]
  apply List.countP_mono_left
  intro p hp hslot
  obtain ⟨j, n, hj, hn, hl, _⟩ := lastMatch_some nodes p.NodeName p.NodePTR (hres p hp)
  simp only [Function.comp, linkPod_NodePTR, hl, hwf j n hj, decide_eq_true_eq] at hslot
  have hjk : j = k := slot_inj hslot
  subst hjk
  have : n = N := by rw [hj] at hk; exact Option.some.inj hk
  subst this
  simp [hn]

theorem twoPasses_loaded (reqNodes : List V1Node) (nss : List Namespace)
    (hres : Resolved (GetNodes reqNodes).1 nss) :
    ∃ s1 s2, connectLoops (Snapshot.load reqNodes nss) = some s1 ∧ accountStep s1 = some s2 ∧
      s1.nodes = (GetNodes reqNodes).1 ∧ s2.nodes = s1.nodes ∧
      ∀ (k : Nat) (N : ClusterNode), (GetNodes reqNodes).1[k]? = some N →
        ∃ (sc sm : Int),
          deref s1.heap N.Available.CPU = some ⟨N.Allocatable.Cpu.nano - sc⟩ ∧
          deref s2.heap N.Available.CPU = some ⟨N.Allocatable.Cpu.nano - sc - sc⟩ ∧
          deref s1.heap N.Available.MEM = some ⟨N.Allocatable.Memory.nano - sm⟩ ∧
          deref s2.heap N.Available.MEM = some ⟨N.Allocatable.Memory.nano - sm - sm⟩ ∧
          deref s1.heap N.Available.POD
            = some (podAfter N.Allocatable.Pods
                (onSlot k ((allPods nss).map (linkPod (GetNodes reqNodes).1))).length) ∧
          deref s2.heap N.Available.POD
            = some (podAfter (podAfter N.Allocatable.Pods
                (onSlot k ((allPods nss).map (linkPod (GetNodes reqNodes).1))).length)
                (onSlot k ((allPods nss).map (linkPod (GetNodes reqNodes).1))).length) := by
  have hwf := GetNodes_slotNodes reqNodes
  obtain ⟨h1, hrun, _, hcells⟩ :=
    accountLoop_linked (GetNodes reqNodes).1 nss (GetNodes reqNodes).2 hwf hres
  obtain ⟨h2, hrun2, _, hcells2⟩ :=
    accountLoop_linked (GetNodes reqNodes).1 nss h1 hwf hres
  have hstep : accountStep ⟨linkLoop nss (GetNodes reqNodes).1, (GetNodes reqNodes).1, h1⟩
      = some ⟨linkLoop nss (GetNodes reqNodes).1, (GetNodes reqNodes).1, h2⟩ := by
    simp only [accountStep, hrun2]
  refine ⟨_, _, connectLoops_some (Snapshot.load reqNodes nss) h1 hrun, hstep, rfl, rfl, ?_⟩
  intro k N hk1
  obtain ⟨hc, hm, hd⟩ := hcells k
  obtain ⟨hc2, hm2, hd2⟩ := hcells2 k
  obtain ⟨ic, im, ip⟩ := GetNodes_cells reqNodes k N hk1
  rw [hwf k N hk1]
  refine ⟨cpuOf k ((allPods nss).map (linkPod (GetNodes reqNodes).1)),
    memOf k ((allPods nss).map (linkPod (GetNodes reqNodes).1)), ?_, ?_, ?_, ?_, ?_, ?_⟩
  · simp only [deref, slot, Option.map_some', hc, ic]
  · simp only [deref, slot, Option.map_some', hc2, hc, ic]
  · simp only [deref, slot, Option.map_some', hm, im]
  · simp only [deref, slot, Option.map_some', hm2, hm, im]
  · simp only [deref, slot, Option.map_some', hd, ip]
  · simp only [deref, slot, Option.map_some', hd2, hd, ip]

theorem sum_onSlot (f : Pod → Int) (i : Nat) (ps : List Pod) :
    ((onSlot i ps).map f).sum
      = (ps.map (fun p => if p.NodePTR.Available = slot i then f p else 0)).sum := by
  induction ps with
  | nil => rfl
  | cons p ps ih =>
    by_cases hp : p.NodePTR.Available = slot i
    · rw [onSlot_cons_same i p ps hp]
      simp only [List.map_cons, List.sum_cons, hp, if_true, ih]
    · have : onSlot i (p :: ps) = onSlot i ps := by simp [onSlot, hp]
      rw [this, ih]
      simp only [List.map_cons, List.sum_cons, hp, if_false, zero_add]

theorem length_eq_sum_one (ps : List Pod) : (ps.length : Int) = (ps.map (fun _ => (1 : Int))).sum := by
  induction ps with
  | nil => rfl
  | cons p ps ih =>
    simp only [List.length_cons, List.map_cons, List.sum_cons, ← ih]
    push_cast
    ring

theorem sum_forall₂ {α : Type} (R : α → α → Prop) (g : α → Int) (hg : ∀ a b, R a b → g a = g b)
    (l1 l2 : List α) (h : List.Forall₂ R l1 l2) : (l1.map g).sum = (l2.map g).sum := by
  induction h with
  | nil => rfl
  | cons hab _ ih => simp only [List.map_cons, List.sum_cons, ih, hg _ _ hab]

theorem sum_podsPerm (g : Pod → Int) (hg : ∀ p q, PodPerm p q → g p = g q)
    (ps qs : List Pod) (h : PodsPerm ps qs) : (ps.map g).sum = (qs.map g).sum := by
  obtain ⟨mid, h1, h2⟩ := h
  rw [sum_forall₂ PodPerm g hg ps mid h1]
  exact (h2.map g).sum_eq

theorem sum_allPods (g : Pod → Int) (nss : List Namespace) :
    ((allPods nss).map g).sum = (nss.map (fun ns => (ns.Pods.map g).sum)).sum := by
  induction nss with
  | nil => rfl
  | cons ns rest ih =>
    simp only [allPods, List.map_append, List.sum_append, List.map_cons, List.sum_cons, ih]

theorem sum_snapPerm (g : Pod → Int) (hg : ∀ p q, PodPerm p q → g p = g q)
    (nss nss1 : List Namespace) (h : SnapPerm nss nss1) :
    ((allPods nss).map g).sum = ((allPods nss1).map g).sum := by
  obtain ⟨mid, h1, h2⟩ := h
  rw [sum_allPods, sum_allPods,
    sum_forall₂ NsPerm (fun ns => (ns.Pods.map g).sum)
      (fun a b hab => sum_podsPerm g hg a.Pods b.Pods hab.2) nss mid h1]
  exact (h2.map _).sum_eq

theorem mem_allPods (p : Pod) (nss : List Namespace) :
    p ∈ allPods nss ↔ ∃ ns ∈ nss, p ∈ ns.Pods := by
  induction nss with
  | nil => simp [allPods]
  | cons ns rest ih => simp [allPods, ih]

theorem forall₂_mem_right {α : Type} (R : α → α → Prop) (l1 l2 : List α)
    (h : List.Forall₂ R l1 l2) (b : α) (hb : b ∈ l2) : ∃ a ∈ l1, R a b := by
  induction h with
  | nil => simp at hb
  | cons hab _ ih =>
    rcases List.mem_cons.mp hb with e | e
    · subst e
      exact ⟨_, List.mem_cons_self _ _, hab⟩
    · obtain ⟨a, ha, hr⟩ := ih e
      exact ⟨a, List.mem_cons_of_mem _ ha, hr⟩

theorem snapPerm_mem (nss nss1 : List Namespace) (h : SnapPerm nss nss1) (q : Pod)
    (hq : q ∈ allPods nss1) : ∃ p ∈ allPods nss, PodPerm p q := by
  obtain ⟨mid, h1, h2⟩ := h
  obtain ⟨ns1, hns1, hq1⟩ := (mem_allPods q nss1).mp hq
  obtain ⟨ns, hns, hrel⟩ := forall₂_mem_right NsPerm nss mid h1 ns1 (h2.mem_iff.mpr hns1)
  obtain ⟨pmid, hp1, hp2⟩ := hrel.2
  obtain ⟨p, hp, hpq⟩ := forall₂_mem_right PodPerm ns.Pods pmid hp1 q (hp2.mem_iff.mpr hq1)
  exact ⟨p, (mem_allPods p nss).mpr ⟨ns, hns, hp⟩, hpq⟩

theorem snapPerm_resolved (nodes : List ClusterNode) (nss nss1 : List Namespace)
    (h : SnapPerm nss nss1) (hres : Resolved nodes nss) : Resolved nodes nss1 := by
  intro q hq
  obtain ⟨p, hp, hpq⟩ := snapPerm_mem nss nss1 h q hq
  obtain ⟨n, hn, e⟩ := hres p hp
  exact ⟨n, hn, by rw [e, hpq.2.1]⟩

theorem podPerm_linkPod_NodePTR (nodes : List ClusterNode) (p q : Pod) (h : PodPerm p q) :
    (linkPod nodes q).NodePTR = (linkPod nodes p).NodePTR := by
  rw [linkPod_NodePTR, linkPod_NodePTR, h.2.1, h.2.2.1]

theorem podPerm_cpuCharge (p q : Pod) (h : PodPerm p q) :
    cpuCharge q.Containers = cpuCharge p.Containers := by
  unfold cpuCharge
  exact ((h.2.2.2.filter charged).map _).sum_eq

theorem podPerm_memCharge (p q : Pod) (h : PodPerm p q) :
    memCharge q.Containers = memCharge p.Containers := by
  unfold memCharge
  exact ((h.2.2.2.filter charged).map _).sum_eq

theorem cpuOf_snapPerm (nodes : List ClusterNode) (nss nss1 : List Namespace)
    (h : SnapPerm nss nss1) (i : Nat) :
    cpuOf i ((allPods nss).map (linkPod nodes)) = cpuOf i ((allPods nss1).map (linkPod nodes)) := by
  unfold cpuOf
  rw [sum_onSlot, sum_onSlot, List.map_map, List.map_map]
  apply sum_snapPerm _ _ nss nss1 h
  intro p q hpq
  simp only [Function.comp, podPerm_linkPod_NodePTR nodes p q hpq, linkPod_Containers,
    podPerm_cpuCharge p q hpq]

theorem memOf_snapPerm (nodes : List ClusterNode) (nss nss1 : List Namespace)
    (h : SnapPerm nss nss1) (i : Nat) :
    memOf i ((allPods nss).map (linkPod nodes)) = memOf i ((allPods nss1).map (linkPod nodes)) := by
  unfold memOf
  rw [sum_onSlot, sum_onSlot, List.map_map, List.map_map]
  apply sum_snapPerm _ _ nss nss1 h
  intro p q hpq
  simp only [Function.comp, podPerm_linkPod_NodePTR nodes p q hpq, linkPod_Containers,
    podPerm_memCharge p q hpq]

theorem count_snapPerm (nodes : List ClusterNode) (nss nss1 : List Namespace)
    (h : SnapPerm nss nss1) (i : Nat) :
    (onSlot i ((allPods nss).map (linkPod nodes))).length
      = (onSlot i ((allPods nss1).map (linkPod nodes))).length := by
  have key : ((onSlot i ((allPods nss).map (linkPod nodes))).length : Int)
      = ((onSlot i ((allPods nss1).map (linkPod nodes))).length : Int) := by
    rw [length_eq_sum_one, length_eq_sum_one, sum_onSlot, sum_onSlot, List.map_map, List.map_map]
    apply sum_snapPerm _ _ nss nss1 h
    intro p q hpq
    simp only [Function.comp, podPerm_linkPod_NodePTR nodes p q hpq]
  exact_mod_cast key

theorem allPods_append (a b : List Namespace) : allPods (a ++ b) = allPods a ++ allPods b := by
  induction a with
  | nil => rfl
  | cons ns rest ih =>
    show ns.Pods ++ allPods (rest ++ b) = ns.Pods ++ allPods rest ++ allPods b
    rw [ih, List.append_assoc]

theorem accountContainers_append (avail : Resource) (a b : List Container) (h : Heap) :
    accountContainers avail h (a ++ b)
      = match accountContainers avail h a with
        | none => none
        | some h1 => accountContainers avail h1 b := by
  induction a generalizing h with
  | nil => rfl
  | cons c cs ih =>
    simp only [List.cons_append, accountContainers]
    cases subLimits avail h c with
    | none => rfl
    | some h1 => exact ih h1

theorem accountContainers_skip (avail : Resource) (pre post : List Container) (c : Container)
    (hc : charged c = false) (h : Heap) :
    accountContainers avail h (pre ++ c :: post) = accountContainers avail h (pre ++ post) := by
  rw [accountContainers_append, accountContainers_append]
  cases accountContainers avail h pre with
  | none => rfl
  | some h1 => simp only [accountContainers, subLimits, hc, Bool.false_eq_true, if_false]

theorem accountPods_replace (p q : Pod) (hpq : ∀ h, accountPod h p = accountPod h q)
    (A B : List Pod) (h : Heap) :
    accountPods h (A ++ p :: B) = accountPods h (A ++ q :: B) := by
  rw [accountPods_append, accountPods_append]
  cases accountPods h A with
  | none => rfl
  | some h1 => simp only [accountPods, hpq h1]

theorem accountPods_map_congr (f g : Pod → Pod)
    (hfg : ∀ p h, accountPod h (f p) = accountPod h (g p)) (ps : List Pod) (h : Heap) :
    accountPods h (ps.map f) = accountPods h (ps.map g) := by
  induction ps generalizing h with
  | nil => rfl
  | cons p ps ih =>
    simp only [List.map_cons, accountPods, hfg p h]
    cases accountPod h (g p) with
    | none => rfl
    | some h1 => exact ih h1

theorem connectLoops_ledger (s : Snapshot) :
    (connectLoops s).map (fun r => (r.nodes, r.heap))
      = (accountPods s.heap ((allPods s.nss).map (linkPod s.nodes))).map (fun h1 => (s.nodes, h1)) := by
  unfold connectLoops accountStep linkStep
  simp only [accountLoop_eq_accountPods, allPods_linkLoop]
  cases accountPods s.heap ((allPods s.nss).map (linkPod s.nodes)) <;> rfl

theorem accountContainers_blank (avail : Resource) (cs : List Container) (h : Heap) :
    accountContainers avail h (cs.map blankContainer) = accountContainers avail h cs := by
  induction cs generalizing h with
  | nil => rfl
  | cons c cs ih =>
    have hsub : subLimits avail h (blankContainer c) = subLimits avail h c := rfl
    simp only [List.map_cons, accountContainers, hsub]
    cases subLimits avail h c with
    | none => rfl
    | some h1 => exact ih h1

theorem accountPod_link_blank (nodes : List ClusterNode) (p : Pod) (h : Heap) :
    accountPod h (linkPod nodes (blankPod p)) = accountPod h (linkPod nodes p) := by
  rw [linkPod_eq, linkPod_eq]
  simp only [accountPod, blankPod]
  cases (lastMatch nodes p.NodeName p.NodePTR).Available.POD with
  | none => rfl
  | some pp => exact accountContainers_blank _ _ _

theorem allPods_blank (nss : List Namespace) :
    allPods (nss.map blankNamespace) = (allPods nss).map blankPod := by
  induction nss with
  | nil => rfl
  | cons ns rest ih => simp only [List.map_cons, allPods, List.map_append, ih, blankNamespace]

theorem accountPods_link_blank (nodes : List ClusterNode) (nss : List Namespace) (h : Heap) :
    accountPods h ((allPods (nss.map blankNamespace)).map (linkPod nodes))
      = accountPods h ((allPods nss).map (linkPod nodes)) := by
  rw [allPods_blank, List.map_map]
  exact accountPods_map_congr (linkPod nodes ∘ blankPod) (linkPod nodes)
    (fun p h => accountPod_link_blank nodes p h) (allPods nss) h

theorem forall₂_map_self {α : Type} (R : α → α → Prop) (f : α → α) (hf : ∀ a, R a (f a))
    (l : List α) : List.Forall₂ R l (l.map f) := by
  induction l with
  | nil => exact List.Forall₂.nil
  | cons a l ih => exact List.Forall₂.cons (hf a) ih

theorem lastMatch_append_last (pre post : List ClusterNode) (n : ClusterNode) (name : String)
    (init : ClusterNode) (hn : n.Name = name) (hpost : ∀ m ∈ post, m.Name ≠ name) :
    lastMatch (pre ++ n :: post) name init = n := by
  unfold lastMatch
  rw [List.foldl_append, List.foldl_cons]
  simp only [hn, if_true]
  exact lastMatch_none post name n hpost

theorem lastMatch_decomp (nodes : List ClusterNode) (name : String)
    (hex : ∃ n ∈ nodes, n.Name = name) :
    ∃ pre n post, nodes = pre ++ n :: post ∧ n.Name = name ∧ ∀ m ∈ post, m.Name ≠ name := by
  induction nodes with
  | nil => simp at hex
  | cons x rest ih =>
    by_cases hrest : ∃ n ∈ rest, n.Name = name
    · obtain ⟨pre, n, post, e, hn, hpost⟩ := ih hrest
      exact ⟨x :: pre, n, post, by rw [e]; rfl, hn, hpost⟩
    · have hno : ∀ n ∈ rest, n.Name ≠ name := fun n hn e => hrest ⟨n, hn, e⟩
      have hx : x.Name = name := by
        obtain ⟨n, hn, e⟩ := hex
        rcases List.mem_cons.mp hn with h1 | h1
        · rw [← h1]; exact e
        · exact absurd e (hno n h1)
      exact ⟨[], x, rest, rfl, hx, hno⟩

theorem linkPod_result (nodes : List ClusterNode) (p : Pod) : LinkResult nodes p (linkPod nodes p) := by
  by_cases hex : ∃ n ∈ nodes, n.Name = p.NodeName
  · left
    obtain ⟨pre, n, post, e, hn, hpost⟩ := lastMatch_decomp nodes p.NodeName hex
    refine ⟨pre, n, post, e, hn, hpost, ?_⟩
    rw [linkPod_NodePTR, e]
    exact lastMatch_append_last pre post n p.NodeName p.NodePTR hn hpost
  · right
    have hno : ∀ n ∈ nodes, n.Name ≠ p.NodeName := fun n hn e => hex ⟨n, hn, e⟩
    exact ⟨hno, by rw [linkPod_NodePTR]; exact lastMatch_none nodes p.NodeName p.NodePTR hno⟩

theorem appendContainers_eq (tmpPod : Pod) (cs : List V1Container) :
    appendContainers tmpPod cs
      = { tmpPod with Containers := tmpPod.Containers ++ cs.map toContainer } := by
  induction cs generalizing tmpPod with
  | nil => simp [appendContainers]
  | cons c cs ih =>
    simp only [appendContainers, ih, List.map_cons, List.append_assoc, List.singleton_append]
    rfl

theorem getPodsLoop_eq (items : List V1Pod) (tmpPod : Pod) (pods : List Pod) :
    getPodsLoop tmpPod pods items = pods ++ podsFrom tmpPod.Containers tmpPod.NodePTR items := by
  induction items generalizing tmpPod pods with
  | nil => simp [getPodsLoop, podsFrom]
  | cons pod rest ih =>
    simp only [getPodsLoop, appendContainers_eq, ih, podsFrom, List.append_assoc,
      List.singleton_append]

theorem GetPods_eq (items : List V1Pod) : GetPods items = podsFrom [] ClusterNode.zero items := by
  unfold GetPods
  rw [getPodsLoop_eq]
  rfl

theorem podsFrom_length (items : List V1Pod) (acc : List Container) (ptr : ClusterNode) :
    (podsFrom acc ptr items).length = items.length := by
  induction items generalizing acc with
  | nil => rfl
  | cons pod rest ih => simp [podsFrom, ih]

theorem podsFrom_getElem? (items : List V1Pod) (acc : List Container) (ptr : ClusterNode)
    (k : Nat) :
    (podsFrom acc ptr items)[k]?
      = (items[k]?).map (fun pod =>
          ⟨pod.Name, pod.Spec.NodeName,
            acc ++ (containersOf (items.take (k + 1))).map toContainer, ptr⟩) := by
  induction items generalizing acc k with
  | nil => simp [podsFrom]
  | cons pod rest ih =>
    cases k with
    | zero => simp [podsFrom, containersOf]
    | succ k =>
      simp only [podsFrom, List.getElem?_cons_succ, ih, List.take_succ_cons, containersOf,
        List.map_append, List.append_assoc]

theorem podsFrom_NodePTR (items : List V1Pod) (acc : List Container) (ptr : ClusterNode) :
    ∀ p ∈ podsFrom acc ptr items, p.NodePTR = ptr := by
  induction items generalizing acc with
  | nil => intro p hp; simp [podsFrom] at hp
  | cons pod rest ih =>
    intro p hp
    rcases List.mem_cons.mp hp with e | e
    · rw [e]
    · exact ih _ p e

theorem podsFrom_mem (items : List V1Pod) (acc : List Container) (ptr : ClusterNode)
    (pod : V1Pod) (hpod : pod ∈ items) :
    ∃ p ∈ podsFrom acc ptr items, p.NodeName = pod.Spec.NodeName := by
  induction items generalizing acc with
  | nil => simp at hpod
  | cons x rest ih =>
    rcases List.mem_cons.mp hpod with e | e
    · subst e
      exact ⟨_, List.mem_cons_self _ _, rfl⟩
    · obtain ⟨p, hp, hn⟩ := ih _ e
      exact ⟨p, List.mem_cons_of_mem _ hp, hn⟩

theorem getNamespaces_fold (reqNs : List V1Namespace) (podsOf : String → List V1Pod)
    (acc : List Namespace) :
    reqNs.foldl (fun nspace ns => nspace ++ [⟨ns.Name, GetPods (podsOf ns.Name)⟩]) acc
      = acc ++ reqNs.map (fun ns => ⟨ns.Name, GetPods (podsOf ns.Name)⟩) := by
  induction reqNs generalizing acc with
  | nil => simp
  | cons ns rest ih => simp only [List.foldl_cons, ih, List.map_cons, List.append_assoc,
      List.singleton_append]

theorem GetNamespaces_eq (reqNs : List V1Namespace) (podsOf : String → List V1Pod) :
    GetNamespaces reqNs podsOf = reqNs.map (fun ns => ⟨ns.Name, GetPods (podsOf ns.Name)⟩) := by
  unfold GetNamespaces
  rw [getNamespaces_fold]
  rfl

theorem GetNamespaces_NodePTR (reqNs : List V1Namespace) (podsOf : String → List V1Pod) :
    ∀ p ∈ allPods (GetNamespaces reqNs podsOf), p.NodePTR = ClusterNode.zero := by
  intro p hp
  obtain ⟨ns, hns, hpns⟩ := (mem_allPods p _).mp hp
  rw [GetNamespaces_eq] at hns
  obtain ⟨v, _, rfl⟩ := List.mem_map.mp hns
  simp only [GetPods_eq] at hpns
  exact podsFrom_NodePTR _ _ _ p hpns

theorem accountPods_nil_ptr (ps : List Pod) (h : Heap)
    (hex : ∃ p ∈ ps, p.NodePTR.Available.POD = none) : accountPods h ps = none := by
  induction ps generalizing h with
  | nil => simp at hex
  | cons x xs ih =>
    simp only [accountPods]
    by_cases hx : x.NodePTR.Available.POD = none
    · simp only [accountPod, hx]
    · cases accountPod h x with
      | none => rfl
      | some h1 =>
        obtain ⟨p, hp, hnil⟩ := hex
        rcases List.mem_cons.mp hp with e | e
        · exact absurd (e ▸ hnil) hx
        · exact ih h1 ⟨p, e, hnil⟩

theorem connectLoops_unresolved (nss : List Namespace) (nodes : List ClusterNode) (h : Heap)
    (p : Pod) (hp : p ∈ allPods nss) (hzero : p.NodePTR = ClusterNode.zero)
    (hno : ∀ n ∈ nodes, n.Name ≠ p.NodeName) : connectLoops ⟨nss, nodes, h⟩ = none := by
  have hrun : accountLoop h (linkLoop nss nodes) = none := by
    rw [accountLoop_eq_accountPods, allPods_linkLoop]
    apply accountPods_nil_ptr
    refine ⟨linkPod nodes p, List.mem_map.mpr ⟨p, hp, rfl⟩, ?_⟩
    rw [linkPod_NodePTR, lastMatch_none nodes p.NodeName p.NodePTR hno, hzero]
    rfl
  simp only [connectLoops, accountStep, linkStep, hrun]

theorem GetNodes_names (reqNodes : List V1Node) (n : ClusterNode) (hn : n ∈ (GetNodes reqNodes).1) :
    ∃ node ∈ reqNodes, n.Name = node.Name := by
  obtain ⟨k, hk⟩ := List.getElem?_of_mem hn
  rw [GetNodes_eq] at hk
  simp only [nodesFrom_getElem?, Option.map_eq_some', Nat.zero_add] at hk
  obtain ⟨it, hit, rfl⟩ := hk
  exact ⟨it, List.getElem?_mem hit, rfl⟩

theorem sampleNodes_unique : UniqueNames (GetNodes sampleNodes).1 := by
  unfold UniqueNames
  decide

theorem sampleNss_resolved : Resolved (GetNodes sampleNodes).1 sampleNss := by
  unfold Resolved
  decide

theorem oneZeroNss_resolved : Resolved (GetNodes sampleNodes).1 oneZeroNss := by
  unfold Resolved
  decide

theorem sampleNss_limitsFit : LimitsFit sampleNss := by
  unfold LimitsFit Quantity.Fits
  decide

theorem oneZeroNss_limitsFit : LimitsFit oneZeroNss := by
  unfold LimitsFit Quantity.Fits
  decide

theorem sampleNss_podsFit :
    ∀ N ∈ (GetNodes sampleNodes).1, PodsFit N (podsOn sampleNss N.Name).length := by
  unfold PodsFit Quantity.Fits
  decide

theorem sampleNss_podsFit_twice :
    ∀ N ∈ (GetNodes sampleNodes).1,
      N.Allocatable.Pods.Whole ∧ PodsFit N (2 * (podsOn sampleNss N.Name).length) := by
  unfold PodsFit Quantity.Fits Quantity.Whole
  decide

theorem onePodNss_resolved (node : V1Node) (hname : node.Name = "n1") :
    Resolved (GetNodes [node]).1 onePodNss := by
  intro p hp
  have hp1 : p.NodeName = "n1" := by
    simp only [onePodNss, allPods, List.append_nil, List.mem_singleton] at hp
    rw [hp]
  exact ⟨mkNodeAt 0 node, List.mem_singleton.mpr rfl, by rw [hp1]; exact hname⟩

theorem single_unique (node : V1Node) : UniqueNames (GetNodes [node]).1 :=
  List.nodup_singleton _

theorem podPerm_refl (p : Pod) : PodPerm p p := ⟨rfl, rfl, rfl, List.Perm.refl _⟩

theorem forall₂_podPerm_self (ps : List Pod) : List.Forall₂ PodPerm ps ps := by
  induction ps with
  | nil => exact List.Forall₂.nil
  | cons p ps ih => exact List.Forall₂.cons (podPerm_refl p) ih

theorem podsPerm_refl (ps : List Pod) : PodsPerm ps ps :=
  ⟨ps, forall₂_podPerm_self ps, List.Perm.refl _⟩

theorem sampleNss_perm : SnapPerm sampleNss sampleNssPermuted := by
  refine ⟨[⟨"default", [⟨"p2", "n1", [cNone], ClusterNode.zero⟩,
      ⟨"p1", "n1", [cSmall, cFull], ClusterNode.zero⟩]⟩,
    ⟨"kube-system", [⟨"p3", "n2", [cSmall], ClusterNode.zero⟩,
      ⟨"p4", "n2", [cMemOnly], ClusterNode.zero⟩]⟩], ?_, List.Perm.swap _ _ _⟩
  refine List.Forall₂.cons ⟨rfl, ?_⟩ (List.Forall₂.cons ⟨rfl, podsPerm_refl _⟩ List.Forall₂.nil)
  refine ⟨[⟨"p1", "n1", [cSmall, cFull], ClusterNode.zero⟩, ⟨"p2", "n1", [cNone], ClusterNode.zero⟩],
    ?_, List.Perm.swap _ _ _⟩
  exact List.Forall₂.cons ⟨rfl, rfl, rfl, List.Perm.swap _ _ _⟩
    (List.Forall₂.cons (podPerm_refl _) List.Forall₂.nil)

theorem scenario_ledgers :
    ledgers (connectLoops (Snapshot.load [nodeN1] scenarioNss))
      = some [(some (milli 1500), some (mebi 3584), some (units 8))] := by
  decide

theorem oversized_limit_ledgers :
    ledgers (connectLoops (Snapshot.load [nodeN1] oversizedLimitNss))
      = some [(some (milli 2000), some (mebi 4096), some (units 9))] := by
  decide

theorem huge_pods_ledgers :
    ledgers (connectLoops (Snapshot.load [nodeHugePods] onePodNss))
      = some [(some (milli 1500), some (mebi 3584), some (units (-1)))] := by
  decide

theorem half_pod_ledgers :
    ledgers (connectLoops (Snapshot.load [nodeHalfPod] onePodNss))
      = some [(some (milli 1500), some (mebi 3584), some (units 2))] := by
  decide

theorem sample_ledgers :
    ledgers (connectLoops (Snapshot.load sampleNodes sampleNss))
      = some [(some (milli 1250), some (mebi 3328), some (units 8)),
              (some (milli 750), some (mebi 1792), some (units (-1)))] := by
  decide

/-! ## The properties -/

/-- C1 (as amended): for every node listing with unique node names and every namespace list
in which every pod's `NodeName` is the name of a loaded node and every CPU and memory limit
fits `int64` in whole units, the link loop and accounting loop return, and every node has
`Available.CPU = Allocatable.CPU - Σ Limits.CPU` and
`Available.MEM = Allocatable.Memory - Σ Limits.Memory`, the sums taken over all containers
of all pods bound to the node except the containers whose CPU limit or memory limit is
exactly zero. -/
theorem limit_aggregation (reqNodes : List V1Node) (nss : List Namespace)
    (hu : UniqueNames (GetNodes reqNodes).1) (hres : Resolved (GetNodes reqNodes).1 nss)
    (hfit : LimitsFit nss) :
    LimitAggregation someZero reqNodes nss := by
  obtain ⟨s1, hs, _, hall⟩ := limitAggregation_someZero reqNodes nss hu hres hfit
  exact ⟨s1, hs, hall⟩

/-- C3 (as amended): for every node listing with unique node names and every namespace
list in which every pod's `NodeName` is the name of a loaded node, when every node's
allocatable pod count fits `int64` and stays at or above the smallest `int64` after one
decrement per pod bound to the node, the link loop and accounting loop return the node
list unchanged, and every node's `Available.POD` is, in whole units, `Allocatable.Pods`
minus the number of pods, over all namespaces, whose `NodeName` is the node's name,
whatever their containers are; when the allocatable pod count is a whole number the ledger
quantity itself is that difference.  The result may be negative. -/
theorem pod_slot_conservation (reqNodes : List V1Node) (nss : List Namespace)
    (hu : UniqueNames (GetNodes reqNodes).1) (hres : Resolved (GetNodes reqNodes).1 nss)
    (hfit : ∀ N ∈ (GetNodes reqNodes).1, PodsFit N (podsOn nss N.Name).length) :
    PodSlotConservation reqNodes nss := by
  obtain ⟨s1, hs, hnodes, hall⟩ := podLedger_loaded reqNodes nss hu hres
  refine ⟨s1, hs, hnodes, ?_⟩
  intro N hN
  obtain ⟨hq, hlow⟩ := hfit N (hnodes ▸ hN)
  exact ⟨_, hall N hN, podAfter_wholeUnits _ _ hq hlow,
    fun hw => podAfter_whole _ _ hq hlow hw⟩

/-- C6: for every node listing and every namespace list in which every pod's `NodeName` is
the name of a loaded node, and every permutation of the namespace list, of the pod list
inside each namespace and of the container list inside each pod, the link loop and
accounting loop return on both the original and the permuted snapshot, and every node has
exactly the same final `Available.CPU`, `Available.MEM` and `Available.POD` in both. -/
theorem order_independence (reqNodes : List V1Node) (nss nss1 : List Namespace)
    (hres : Resolved (GetNodes reqNodes).1 nss) (hperm : SnapPerm nss nss1) :
    ∃ s s1, connectLoops (Snapshot.load reqNodes nss) = some s ∧
      connectLoops (Snapshot.load reqNodes nss1) = some s1 ∧
      s1.nodes = s.nodes ∧
      ∀ N ∈ s.nodes, ∃ c m d,
        (deref s.heap N.Available.CPU = some c ∧ deref s1.heap N.Available.CPU = some c) ∧
        (deref s.heap N.Available.MEM = some m ∧ deref s1.heap N.Available.MEM = some m) ∧
        (deref s.heap N.Available.POD = some d ∧ deref s1.heap N.Available.POD = some d) := by
  have hwf := GetNodes_slotNodes reqNodes
  have hres1 := snapPerm_resolved _ nss nss1 hperm hres
  obtain ⟨h1, hrun, _, hcells⟩ :=
    accountLoop_linked (GetNodes reqNodes).1 nss (GetNodes reqNodes).2 hwf hres
  obtain ⟨h2, hrun2, _, hcells2⟩ :=
    accountLoop_linked (GetNodes reqNodes).1 nss1 (GetNodes reqNodes).2 hwf hres1
  refine ⟨_, _, connectLoops_some (Snapshot.load reqNodes nss) h1 hrun,
    connectLoops_some (Snapshot.load reqNodes nss1) h2 hrun2, rfl, ?_⟩
  intro N hN
  obtain ⟨k, hk⟩ := List.getElem?_of_mem hN
  have hk1 : (GetNodes reqNodes).1[k]? = some N := hk
  obtain ⟨hc, hm, hd⟩ := hcells k
  obtain ⟨hc2, hm2, hd2⟩ := hcells2 k
  rw [hwf k N hk1]
  refine ⟨h1.cells (3 * k), h1.cells (3 * k + 1), h1.cells (3 * k + 2), ⟨rfl, ?_⟩, ⟨rfl, ?_⟩, ⟨rfl, ?_⟩⟩
  · simp only [deref, slot, Option.map_some', Option.some.injEq]
    rw [hc, hc2, cpuOf_snapPerm _ nss nss1 hperm k]
  · simp only [deref, slot, Option.map_some', Option.some.injEq]
    rw [hm, hm2, memOf_snapPerm _ nss nss1 hperm k]
  · simp only [deref, slot, Option.map_some', Option.some.injEq]
    rw [hd, hd2, count_snapPerm _ nss nss1 hperm k]

/-- C10 (as amended): for every node listing and every namespace list in which every
pod's `NodeName` is the name of a loaded node, when every node's allocatable pod count is a
whole number that fits `int64` and stays at or above the smallest `int64` after two
decrements per pod named for the node, the link loop and accounting loop return, a second
run of the accounting loop over the accounted graph returns too, and for every node and
each of CPU, MEM and POD the second run subtracts the same amounts again: `Available` after
two passes is `Available` after one pass minus (`Allocatable` minus `Available` after one
pass), as exact quantities. -/
theorem second_pass_double_counts (reqNodes : List V1Node) (nss : List Namespace)
    (hres : Resolved (GetNodes reqNodes).1 nss)
    (hpods : ∀ N ∈ (GetNodes reqNodes).1,
      N.Allocatable.Pods.Whole ∧ PodsFit N (2 * (podsOn nss N.Name).length)) :
    DoubleCount reqNodes nss := by
  have hwf := GetNodes_slotNodes reqNodes
  obtain ⟨s1, s2, hs1, hs2, hnodes, hnodes2, hall⟩ := twoPasses_loaded reqNodes nss hres
  refine ⟨s1, s2, hs1, hs2, hnodes2, ?_⟩
  intro N hN
  obtain ⟨k, hk⟩ := List.getElem?_of_mem (hnodes ▸ hN)
  obtain ⟨sc, sm, e1, e2, e3, e4, e5, e6⟩ := hall k N hk
  obtain ⟨hw, hq, hlow⟩ := hpods N (hnodes ▸ hN)
  have hle := onSlot_linked_le (GetNodes reqNodes).1 nss hwf hres k N hk
  refine ⟨_, _, _, _, _, _, e1, e2, e3, e4, e5, e6, ?_, ?_, ?_⟩
  · simp only
    omega
  · simp only
    omega
  · rw [podAfter_add]
    have hlow2 : minInt64 ≤ N.Allocatable.Pods.wholeUnits
        - ((onSlot k ((allPods nss).map (linkPod (GetNodes reqNodes).1))).length
          + (onSlot k ((allPods nss).map (linkPod (GetNodes reqNodes).1))).length : Nat) := by
      push_cast at hlow ⊢
      omega
    have hlow1 : minInt64 ≤ N.Allocatable.Pods.wholeUnits
        - ((onSlot k ((allPods nss).map (linkPod (GetNodes reqNodes).1))).length : Nat) := by
      push_cast at hlow2 ⊢
      omega
    rw [podAfter_whole _ _ hq hlow2 hw, podAfter_whole _ _ hq hlow1 hw]
    simp only
    push_cast
    omega

/-- C2 (the code departs from it): whenever the pod listing of some namespace holds a pod
whose `NodeName` is the name of no listed node, `Connect` panics in the accounting loop
(a method call through the nil `Available.POD` pointer of the unresolved `NodePTR`); it
does not skip the pod. -/
theorem unresolved_pod_panics (reqNs : List V1Namespace) (podsOf : String → List V1Pod)
    (reqNodes : List V1Node) (ns : V1Namespace) (pod : V1Pod)
    (hns : ns ∈ reqNs) (hpod : pod ∈ podsOf ns.Name)
    (hno : ∀ node ∈ reqNodes, node.Name ≠ pod.Spec.NodeName) :
    Connect reqNs podsOf reqNodes = none := by
  obtain ⟨p, hp, hname⟩ := podsFrom_mem (podsOf ns.Name) [] ClusterNode.zero pod hpod
  have hmem : p ∈ allPods (GetNamespaces reqNs podsOf) := by
    rw [mem_allPods, GetNamespaces_eq]
    exact ⟨⟨ns.Name, GetPods (podsOf ns.Name)⟩, List.mem_map.mpr ⟨ns, hns, rfl⟩,
      by rw [GetPods_eq]; exact hp⟩
  apply connectLoops_unresolved _ _ _ p hmem (GetNamespaces_NodePTR reqNs podsOf p hmem)
  intro n hn e
  obtain ⟨node, hnode, hnm⟩ := GetNodes_names reqNodes n hn
  exact hno node hnode (by rw [← hnm, e, hname])

/-- C4: the link loop leaves the node list and the ledger cells as they are, keeps the
namespaces and pods in place with their `Name`, `NodeName` and `Containers`, and sets each
pod's `NodePTR` to the last node of the list whose `Name` equals the pod's `NodeName`
(exact string equality) when there is one, and leaves `NodePTR` as it was otherwise; as
loaded by `GetNamespaces` that is the zero `ClusterNode`. -/
theorem linker_result (nss : List Namespace) (nodes : List ClusterNode) (h : Heap) :
    (linkStep ⟨nss, nodes, h⟩).nodes = nodes ∧
    (linkStep ⟨nss, nodes, h⟩).heap = h ∧
    List.Forall₂
      (fun ns ns1 => ns1.Name = ns.Name ∧
        List.Forall₂
          (fun p p1 => p1.Name = p.Name ∧ p1.NodeName = p.NodeName ∧
            p1.Containers = p.Containers ∧ LinkResult nodes p p1)
          ns.Pods ns1.Pods)
      nss (linkStep ⟨nss, nodes, h⟩).nss ∧
    ∀ (reqNs : List V1Namespace) (podsOf : String → List V1Pod),
      ∀ p ∈ allPods (GetNamespaces reqNs podsOf), p.NodePTR = ClusterNode.zero := by
  refine ⟨rfl, rfl, ?_, GetNamespaces_NodePTR⟩
  apply forall₂_map_self
  intro ns
  refine ⟨rfl, ?_⟩
  apply forall₂_map_self
  intro p
  exact ⟨linkPod_Name nodes p, linkPod_NodeName nodes p, linkPod_Containers nodes p,
    linkPod_result nodes p⟩

/-- C5: for every graph (any nodes, any ledger state) and every container whose CPU limit
and memory limit are both exactly zero, the link loop and accounting loop give the same
outcome, with the same node list and the same ledger cells, as on the graph in which that
container is removed from its pod. -/
theorem skip_rule (nodes : List ClusterNode) (h : Heap) (nsPre nsPost : List Namespace)
    (nsName : String) (pPre pPost : List Pod) (podName nodeName : String) (ptr : ClusterNode)
    (cPre cPost : List Container) (c : Container)
    (hzero : c.Limits.Cpu.nano = 0 ∧ c.Limits.Memory.nano = 0) :
    (connectLoops
        ⟨nsPre ++ ⟨nsName, pPre ++ ⟨podName, nodeName, cPre ++ c :: cPost, ptr⟩ :: pPost⟩ :: nsPost,
          nodes, h⟩).map (fun r => (r.nodes, r.heap))
      = (connectLoops
        ⟨nsPre ++ ⟨nsName, pPre ++ ⟨podName, nodeName, cPre ++ cPost, ptr⟩ :: pPost⟩ :: nsPost,
          nodes, h⟩).map (fun r => (r.nodes, r.heap)) := by
  have hc : charged c = false := by
    cases hch : charged c with
    | false => rfl
    | true => exact absurd hzero.1 (charged_nonzero c hch).1
  rw [connectLoops_ledger, connectLoops_ledger]
  simp only [allPods_append, allPods, List.map_append, List.map_cons, List.append_assoc,
    List.cons_append]
  congr 1
  rw [← List.append_assoc, ← List.append_assoc (List.map (linkPod nodes) (allPods nsPre))]
  apply accountPods_replace
  intro h1
  rw [linkPod_eq, linkPod_eq]
  simp only [accountPod]
  cases (lastMatch nodes nodeName ptr).Available.POD with
  | none => rfl
  | some pp => exact accountContainers_skip _ cPre cPost c hc _

/-- C7: `GetNodes` builds one node per listed node, in order, with the listed `Name`,
`Allocatable`, `Capacity` and `Labels`, and with fresh ledger cells of its own that hold
copies of the allocatable CPU, memory and pods; and for every graph the link loop leaves
the node list and the ledger cells as they are, and when the link loop and accounting loop
return, the node list (every node's `Name`, `Allocatable`, `Capacity`, `Labels`, and the
pointers in `Available`) is the one they started from: only the ledger cells change. -/
theorem baselines_isolated (reqNodes : List V1Node) :
    (GetNodes reqNodes).1.length = reqNodes.length ∧
    (∀ (k : Nat) (node : V1Node), reqNodes[k]? = some node →
      ∃ N, (GetNodes reqNodes).1[k]? = some N ∧
        N.Name = node.Name ∧ N.Allocatable = node.Status.Allocatable ∧
        N.Capacity = node.Status.Capacity ∧ N.Labels = node.Labels ∧
        N.Available = ⟨some (3 * k), some (3 * k + 1), some (3 * k + 2)⟩ ∧
        deref (GetNodes reqNodes).2 N.Available.CPU = some N.Allocatable.Cpu ∧
        deref (GetNodes reqNodes).2 N.Available.MEM = some N.Allocatable.Memory ∧
        deref (GetNodes reqNodes).2 N.Available.POD = some N.Allocatable.Pods) ∧
    (∀ (s : Snapshot), (linkStep s).nodes = s.nodes ∧ (linkStep s).heap = s.heap ∧
      ∀ (s1 : Snapshot), connectLoops s = some s1 → s1.nodes = s.nodes) := by
  refine ⟨?_, ?_, ?_⟩
  · rw [GetNodes_eq]
    exact nodesFrom_length reqNodes 0
  · intro k node hk
    have hN : (GetNodes reqNodes).1[k]? = some (mkNodeAt (3 * k) node) := by
      rw [GetNodes_eq]
      simp only [nodesFrom_getElem?, hk, Option.map_some', Nat.zero_add]
    obtain ⟨ic, im, ip⟩ := GetNodes_cells reqNodes k _ hN
    refine ⟨_, hN, rfl, rfl, rfl, rfl, rfl, ?_, ?_, ?_⟩
    · simp only [deref, mkNodeAt, Option.map_some', ic]
    · simp only [deref, mkNodeAt, Option.map_some', im]
    · simp only [deref, mkNodeAt, Option.map_some', ip]
  · intro s
    refine ⟨rfl, rfl, ?_⟩
    intro s1 hs
    unfold connectLoops accountStep at hs
    cases hrun : accountLoop (linkStep s).heap (linkStep s).nss with
    | none => rw [hrun] at hs; exact absurd hs (by simp)
    | some h1 =>
      rw [hrun] at hs
      simp only [Option.some.injEq] at hs
      rw [← hs]
      rfl

/-- C8: for every node list and ledger state and any two namespace lists that are identical
except for the `Requests` of their containers, the link loop and accounting loop give the
same outcome: both panic, or both return with the same node list and the same ledger
cells, hence the same `Available` (CPU, MEM, POD) for every node. -/
theorem requests_never_influence (nodes : List ClusterNode) (h : Heap)
    (nss nss1 : List Namespace) (hsame : SameExceptRequests nss nss1) :
    (connectLoops ⟨nss, nodes, h⟩).map (fun r => (r.nodes, r.heap))
      = (connectLoops ⟨nss1, nodes, h⟩).map (fun r => (r.nodes, r.heap)) := by
  rw [connectLoops_ledger, connectLoops_ledger]
  show (accountPods h ((allPods nss).map (linkPod nodes))).map (fun h1 => (nodes, h1))
    = (accountPods h ((allPods nss1).map (linkPod nodes))).map (fun h1 => (nodes, h1))
  rw [← accountPods_link_blank nodes nss h, ← accountPods_link_blank nodes nss1 h, hsame]

/-- C9 (the code departs from it): `GetPods` returns one `Pod` per listed pod, in listing
order, with that pod's `Name` and `NodeName` and a zero `NodePTR`, but the `Containers` of
the pod at index `k` are the containers of all listed pods up to and including index `k`,
not only its own: `tmpPod` is never reset between iterations. -/
theorem getPods_accumulates_containers (reqPods : List V1Pod) :
    (GetPods reqPods).length = reqPods.length ∧
    ∀ (k : Nat) (pod : V1Pod), reqPods[k]? = some pod →
      (GetPods reqPods)[k]?
        = some ⟨pod.Name, pod.Spec.NodeName,
            (containersOf (reqPods.take (k + 1))).map toContainer, ClusterNode.zero⟩ := by
  rw [GetPods_eq]
  refine ⟨podsFrom_length reqPods [] ClusterNode.zero, ?_⟩
  intro k pod hk
  rw [podsFrom_getElem?, hk]
  simp

/-! ## The properties at the sample cluster -/

/-- C1 at the sample cluster: `n1` keeps 1250m and 3328Mi, `n2` keeps 750m and 1792Mi (the
container with a memory limit only is left out of both sums). -/
theorem limit_aggregation_witness :
    UniqueNames (GetNodes sampleNodes).1 ∧ Resolved (GetNodes sampleNodes).1 sampleNss ∧
      LimitsFit sampleNss ∧ LimitAggregation someZero sampleNodes sampleNss :=
  ⟨sampleNodes_unique, sampleNss_resolved, sampleNss_limitsFit,
    limit_aggregation sampleNodes sampleNss sampleNodes_unique sampleNss_resolved
      sampleNss_limitsFit⟩

/-- C1 as stated fails: with one pod on `n1` whose only container has a 512Mi memory limit
and no CPU limit, node names are unique and the pod resolves, yet the ledger is not
`Allocatable` minus the limits of all containers that are not all-zero (the memory limit
is not subtracted). -/
theorem limit_aggregation_both_zero_fails :
    UniqueNames (GetNodes sampleNodes).1 ∧ Resolved (GetNodes sampleNodes).1 oneZeroNss ∧
      ¬ LimitAggregation bothZero sampleNodes oneZeroNss := by
  refine ⟨sampleNodes_unique, oneZeroNss_resolved, ?_⟩
  rintro ⟨s1, hs, hall⟩
  obtain ⟨s2, hs2, hnodes, hall2⟩ :=
    limitAggregation_someZero sampleNodes oneZeroNss sampleNodes_unique oneZeroNss_resolved
      oneZeroNss_limitsFit
  rw [hs] at hs2
  have e : s1 = s2 := Option.some.inj hs2
  subst e
  have hN : mkNodeAt 0 nodeN1 ∈ s1.nodes := by
    rw [hnodes]
    decide
  have e1 := (hall _ hN).2
  have e2 := (hall2 _ hN).2
  rw [e1] at e2
  revert e2
  decide

/-- C3 at the sample cluster: `n1` keeps 8 of 10 pod slots and `n2`, with two pods on one
slot, ends at a negative count. -/
theorem pod_slot_conservation_witness :
    UniqueNames (GetNodes sampleNodes).1 ∧ Resolved (GetNodes sampleNodes).1 sampleNss ∧
    (∀ N ∈ (GetNodes sampleNodes).1, PodsFit N (podsOn sampleNss N.Name).length) ∧
    PodSlotConservation sampleNodes sampleNss :=
  ⟨sampleNodes_unique, sampleNss_resolved, sampleNss_podsFit,
    pod_slot_conservation sampleNodes sampleNss sampleNodes_unique sampleNss_resolved
      sampleNss_podsFit⟩

/-- C3 as stated fails: with one node `n1` whose allocatable pod count is `10E`, a whole
number beyond `int64`, and one pod on it, node names are unique and the pod resolves, yet
`Available.POD` ends at `-1`, not at `10E - 1`. -/
theorem pod_slot_conservation_fails_beyond_int64 :
    UniqueNames (GetNodes [nodeHugePods]).1 ∧ Resolved (GetNodes [nodeHugePods]).1 onePodNss ∧
      ¬ PodSlotConservation [nodeHugePods] onePodNss := by
  refine ⟨single_unique nodeHugePods, onePodNss_resolved nodeHugePods rfl, ?_⟩
  rintro ⟨s1, hs, hnodes, hall⟩
  obtain ⟨s2, hs2, _, hall2⟩ := podLedger_loaded [nodeHugePods] onePodNss
    (single_unique nodeHugePods) (onePodNss_resolved nodeHugePods rfl)
  rw [hs] at hs2
  have e : s1 = s2 := Option.some.inj hs2
  subst e
  have hN : mkNodeAt 0 nodeHugePods ∈ s1.nodes := by
    rw [hnodes]
    decide
  obtain ⟨q, hq, hwhole, _⟩ := hall _ hN
  have e2 := hall2 _ hN
  rw [hq] at e2
  have e3 : q = podAfter (mkNodeAt 0 nodeHugePods).Allocatable.Pods
      (podsOn onePodNss (mkNodeAt 0 nodeHugePods).Name).length := Option.some.inj e2
  rw [e3] at hwhole
  revert hwhole
  decide

/-- C2 at a listing with a pod that is not scheduled: `Connect` panics. -/
theorem unresolved_pod_panics_witness :
    (⟨"default"⟩ : V1Namespace) ∈ sampleNamespaceListing ∧
    (∃ pod ∈ samplePodsOf "default", pod.Spec.NodeName = "" ∧
      ∀ node ∈ sampleNodes, node.Name ≠ pod.Spec.NodeName) ∧
    Connect sampleNamespaceListing samplePodsOf sampleNodes = none :=
  ⟨by decide, ⟨podPending, by decide, by decide, by decide⟩,
    unresolved_pod_panics sampleNamespaceListing samplePodsOf sampleNodes ⟨"default"⟩
      podPending (by decide) (by decide) (by decide)⟩

/-- C5 at the specification's scenario: removing the all-zero container of `p2` changes
neither the node list nor any ledger cell. -/
theorem skip_rule_witness :
    (cNone.Limits.Cpu.nano = 0 ∧ cNone.Limits.Memory.nano = 0) ∧
    (connectLoops (Snapshot.load [nodeN1] scenarioNss)).map (fun r => (r.nodes, r.heap))
      = (connectLoops (Snapshot.load [nodeN1]
          [⟨"default", [⟨"p1", "n1", [cFull], ClusterNode.zero⟩,
                        ⟨"p2", "n1", [], ClusterNode.zero⟩]⟩])).map
          (fun r => (r.nodes, r.heap)) :=
  ⟨by decide,
    skip_rule (GetNodes [nodeN1]).1 (GetNodes [nodeN1]).2 [] []
      "default" [⟨"p1", "n1", [cFull], ClusterNode.zero⟩] [] "p2" "n1" ClusterNode.zero [] []
      cNone (by decide)⟩

/-- C6 at the sample cluster and a permutation of its namespaces, pods and containers. -/
theorem order_independence_witness :
    Resolved (GetNodes sampleNodes).1 sampleNss ∧ SnapPerm sampleNss sampleNssPermuted ∧
    ∃ s s1, connectLoops (Snapshot.load sampleNodes sampleNss) = some s ∧
      connectLoops (Snapshot.load sampleNodes sampleNssPermuted) = some s1 ∧
      s1.nodes = s.nodes ∧
      ∀ N ∈ s.nodes, ∃ c m d,
        (deref s.heap N.Available.CPU = some c ∧ deref s1.heap N.Available.CPU = some c) ∧
        (deref s.heap N.Available.MEM = some m ∧ deref s1.heap N.Available.MEM = some m) ∧
        (deref s.heap N.Available.POD = some d ∧ deref s1.heap N.Available.POD = some d) :=
  ⟨sampleNss_resolved, sampleNss_perm,
    order_independence sampleNodes sampleNss sampleNssPermuted sampleNss_resolved sampleNss_perm⟩

/-- C7 at the sample cluster: the loops return and the node list is the loaded one. -/
theorem baselines_isolated_witness :
    (GetNodes sampleNodes).1.length = 2 ∧
    ∃ s1, connectLoops (Snapshot.load sampleNodes sampleNss) = some s1 ∧
      s1.nodes = (GetNodes sampleNodes).1 := by
  obtain ⟨s1, hs, _⟩ :=
    limitAggregation_someZero sampleNodes sampleNss sampleNodes_unique sampleNss_resolved
      sampleNss_limitsFit
  exact ⟨(baselines_isolated sampleNodes).1, s1, hs,
    ((baselines_isolated sampleNodes).2.2 (Snapshot.load sampleNodes sampleNss)).2.2 s1 hs⟩

/-- C8 at the sample cluster and the same cluster with other requests. -/
theorem requests_never_influence_witness :
    SameExceptRequests sampleNss sampleNssOtherRequests ∧
    (connectLoops (Snapshot.load sampleNodes sampleNss)).map (fun r => (r.nodes, r.heap))
      = (connectLoops (Snapshot.load sampleNodes sampleNssOtherRequests)).map
          (fun r => (r.nodes, r.heap)) :=
  ⟨by unfold SameExceptRequests; decide,
    requests_never_influence (GetNodes sampleNodes).1 (GetNodes sampleNodes).2 sampleNss
      sampleNssOtherRequests (by unfold SameExceptRequests; decide)⟩

/-- C9 at a listing of two pods with one container each: the second returned pod holds
two containers, the first pod's and its own. -/
theorem getPods_accumulates_containers_witness :
    samplePodListing[1]? = some podPending ∧
    (GetPods samplePodListing)[1]?
      = some ⟨"pending", "",
          [toContainer ⟨"nginx", ⟨⟨some (milli 500), some (mebi 512), none⟩, ResourceList.none⟩⟩,
           toContainer ⟨"job", ⟨⟨some (milli 250), some (mebi 256), none⟩, ResourceList.none⟩⟩],
          ClusterNode.zero⟩ :=
  ⟨by decide,
    (getPods_accumulates_containers samplePodListing).2 1 podPending (by decide)⟩

/-- C10 at the sample cluster. -/
theorem second_pass_double_counts_witness :
    Resolved (GetNodes sampleNodes).1 sampleNss ∧
    (∀ N ∈ (GetNodes sampleNodes).1,
      N.Allocatable.Pods.Whole ∧ PodsFit N (2 * (podsOn sampleNss N.Name).length)) ∧
    DoubleCount sampleNodes sampleNss :=
  ⟨sampleNss_resolved, sampleNss_podsFit_twice,
    second_pass_double_counts sampleNodes sampleNss sampleNss_resolved sampleNss_podsFit_twice⟩

/-- C10 as stated fails: with one node `n1` whose allocatable pod count is `2500m` and one
pod on it, the pod resolves, the first pass leaves `Available.POD` at 2 and the second at 1,
while `Available` after one pass minus (`Allocatable` minus `Available` after one pass) is
one and a half. -/
theorem second_pass_fails_on_fractional_pods :
    Resolved (GetNodes [nodeHalfPod]).1 onePodNss ∧ ¬ DoubleCount [nodeHalfPod] onePodNss := by
  refine ⟨onePodNss_resolved nodeHalfPod rfl, ?_⟩
  rintro ⟨s1, s2, hs1, hs2, _, hall⟩
  obtain ⟨t1, t2, ht1, ht2, hnodes, _, hcells⟩ :=
    twoPasses_loaded [nodeHalfPod] onePodNss (onePodNss_resolved nodeHalfPod rfl)
  rw [hs1] at ht1
  have e : s1 = t1 := Option.some.inj ht1
  subst e
  rw [hs2] at ht2
  have e : s2 = t2 := Option.some.inj ht2
  subst e
  have hN : mkNodeAt 0 nodeHalfPod ∈ s1.nodes := by
    rw [hnodes]
    decide
  obtain ⟨c1, m1, d1, c2, m2, d2, _, _, _, _, hd1, hd2, _, _, hpod⟩ := hall _ hN
  obtain ⟨sc, sm, _, _, _, _, f1, f2⟩ := hcells 0 (mkNodeAt 0 nodeHalfPod) (by decide)
  rw [hd1] at f1
  rw [hd2] at f2
  have g1 := Option.some.inj f1
  have g2 := Option.some.inj f2
  rw [g1, g2] at hpod
  revert hpod
  decide

end K8sExtend
